import Mathlib

/-!
Verification development for the `stats` repository's correlation package
(`src/correlation/pearsons.go` and the related files of package `correlation`).

The Go code computes Pearson's product-moment correlation coefficient in two
arithmetic worlds:

* a machine-precision path (`pearsonsSinglePass`) over IEEE-754 binary64
  (`float64`) arithmetic, and
* an arbitrary-precision path (`PearsonsBig`) over `math/big.Float`.

Embedding choices, kept close to the source:

* `float64` is modelled by `Fl`: an exact rational together with the two
  infinities and NaN.  Every arithmetic operation computes the exact rational
  result and then applies `flRound`, a full implementation of IEEE-754
  binary64 round-to-nearest-ties-to-even, including gradual underflow to
  subnormals/zero and overflow to infinity.  Signed zero is not distinguished;
  in the code paths reached below a zero divisor only arises as the
  non-negative result of `math.Sqrt`, where IEEE gives `+0`, so the quotient
  sign convention of `Fl.fdiv` (sign of the numerator) agrees with Go.
* `big.Float` is modelled by `BigV`: an exact rational or a signed infinity.
  `big.Float` rounds finite results to the working precision and can overflow
  its (huge) exponent range; this embedding idealises finite big-float
  arithmetic as exact.  No theorem below depends on that idealisation: every
  universally quantified statement about the big path is about control flow
  (which checks fire, which error is returned), and every concrete evaluation
  uses small dyadic values on which `big.Float` arithmetic is exact at its
  working precision.  Infinities, whose handling the checks under scrutiny are
  about, are modelled exactly: `big.Float` operations that would panic with
  `big.ErrNaN` (`Inf - Inf` of equal signs, `0 * Inf`, `Inf / Inf`, `0 / 0`,
  `Sqrt` of a negative) are modelled as a `panic` outcome (`Option.none` at the
  operation level).
* Go's `(float64, error)` results become `Res.ret (v : Fl) (e : Option Err)`;
  a Go runtime panic becomes `Res.panicked`.  Error values are identified by
  the `Err` enumeration; each constructor corresponds to one distinct
  `errors.New` message in the source (the exact strings are noted at the
  constructor).
* Rationals are implemented from scratch (`Q`) because every definition here
  must evaluate inside the kernel (`decide`); all recursion is fuelled and
  structural.
-/

set_option maxRecDepth 4000

/-- 2 ^ k as a natural number, via the kernel-accelerated shift. -/
def pow2 (k : Nat) : Nat := Nat.shiftLeft 1 k

/-- Fuelled Euclidean gcd (structural recursion, kernel-reducible). -/
def gcdF : Nat → Nat → Nat → Nat
  | 0, _, b => b
  | fuel+1, a, b => if a = 0 then b else gcdF fuel (b % a) a

/-- Exact rationals: numerator and positive denominator, kept in lowest terms
by the smart constructor `mkQ`.  All operations are kernel-computable. -/
structure Q where
  num : Int
  den : Nat
  deriving DecidableEq, Repr

/-- Build a rational in lowest terms. -/
def mkQ (n : Int) (d : Nat) : Q :=
  if d = 0 then ⟨0, 1⟩
  else
    let g := gcdF (n.natAbs + 1) n.natAbs d
    if g = 0 then ⟨0, 1⟩ else ⟨n / (g : Int), d / g⟩

def Q.ofInt (n : Int) : Q := ⟨n, 1⟩

def Q.ofNat (n : Nat) : Q := ⟨(n : Int), 1⟩

def Q.zero : Q := ⟨0, 1⟩

def Q.add (a b : Q) : Q := mkQ (a.num * b.den + b.num * a.den) (a.den * b.den)

def Q.mul (a b : Q) : Q := mkQ (a.num * b.num) (a.den * b.den)

def Q.neg (a : Q) : Q := ⟨-a.num, a.den⟩

def Q.sub (a b : Q) : Q := Q.add a (Q.neg b)

/-- Exact division; division by zero yields 0 (callers guard against it). -/
def Q.div (a b : Q) : Q :=
  if b.num < 0 then mkQ (-(a.num * b.den)) (a.den * b.num.natAbs)
  else mkQ (a.num * b.den) (a.den * b.num.natAbs)

def Q.isNeg (a : Q) : Bool := a.num < 0

def Q.isZero (a : Q) : Bool := a.num = 0

def Q.ble (a b : Q) : Bool := a.num * b.den ≤ b.num * a.den

def Q.blt (a b : Q) : Bool := a.num * b.den < b.num * a.den

/-- Bit-count helper: last 64 bits, one at a time. -/
def szSmall : Nat → Nat → Nat → Nat
  | 0, _, acc => acc
  | f+1, n, acc => if n = 0 then acc else szSmall f (n / 2) (acc + 1)

/-- Bit-count helper: strip 64 bits per step to keep recursion shallow. -/
def szChunk : Nat → Nat → Nat → Nat
  | 0, _, acc => acc
  | f+1, n, acc =>
    if n < 18446744073709551616 then szSmall 64 n acc
    else szChunk f (n >>> 64) (acc + 64)

/-- Number of binary digits of `n` (`natSize 0 = 0`, `natSize 1 = 1`). -/
def natSize (n : Nat) : Nat := szChunk n n 0

/-- Newton iteration step for the integer square root. -/
def sqrtIter : Nat → Nat → Nat → Nat
  | 0, _, x => x
  | f+1, n, x =>
    let y := (x + n / x) / 2
    if y < x then sqrtIter f n y else x

/-- Floor of the square root of a natural number. -/
def isqrt (n : Nat) : Nat :=
  if n = 0 then 0 else sqrtIter 200 n (pow2 (natSize n / 2 + 1))

/-- Floor of `log2 (a / b)` for positive naturals `a`, `b`. -/
def ilog2 (a b : Nat) : Int :=
  let d : Int := (natSize a : Int) - (natSize b : Int)
  let ge : Bool := if 0 ≤ d then b * pow2 d.toNat ≤ a else b ≤ a * pow2 (-d).toNat
  if ge then d else d - 1

/-- Round `a / b` (with `b > 0`) to the nearest integer, ties to even. -/
def roundHalfEven (a b : Nat) : Nat :=
  let q := a / b
  let r := a % b
  if 2 * r < b then q else if b < 2 * r then q + 1 else if q % 2 = 0 then q else q + 1

/-- A `float64` value: a finite (representable) rational, an infinity, or NaN. -/
inductive Fl where
  | finite (q : Q)
  | inf (neg : Bool)
  | nan
  deriving DecidableEq, Repr

def Fl.fzero : Fl := .finite Q.zero

/-- IEEE-754 binary64 round-to-nearest, ties to even, of an exact rational:
normal numbers carry a 53-bit significand, the exponent of the least
significant bit is clamped at `-1074` (gradual underflow), and results of
magnitude at least `2^1024` after rounding become infinite. -/
def flRound (x : Q) : Fl :=
  if x.num = 0 then .finite Q.zero
  else
    let neg := x.num < 0
    let a := x.num.natAbs
    let b := x.den
    let e : Int := max (ilog2 a b) (-1022)
    let s : Int := 52 - e
    let n := if 0 ≤ s then roundHalfEven (a * pow2 s.toNat) b else roundHalfEven a (b * pow2 (-s).toNat)
    let ovfl : Bool :=
      if 52 ≤ e then pow2 1024 ≤ n * pow2 (e - 52).toNat
      else pow2 1024 * pow2 (52 - e).toNat ≤ n
    if ovfl then .inf neg
    else
      let m : Int := if neg then -(n : Int) else (n : Int)
      if 52 ≤ e then .finite (mkQ (m * pow2 (e - 52).toNat) 1)
      else .finite (mkQ m (pow2 (52 - e).toNat))

/-- IEEE-754 binary64 addition. -/
def Fl.fadd : Fl → Fl → Fl
  | .nan, _ => .nan
  | _, .nan => .nan
  | .inf b1, .inf b2 => if b1 = b2 then .inf b1 else .nan
  | .inf b, .finite _ => .inf b
  | .finite _, .inf b => .inf b
  | .finite p, .finite q => flRound (Q.add p q)

/-- IEEE-754 binary64 subtraction. -/
def Fl.fsub : Fl → Fl → Fl
  | .nan, _ => .nan
  | _, .nan => .nan
  | .inf b1, .inf b2 => if b1 = b2 then .nan else .inf b1
  | .inf b, .finite _ => .inf b
  | .finite _, .inf b => .inf (!b)
  | .finite p, .finite q => flRound (Q.sub p q)

/-- IEEE-754 binary64 multiplication. -/
def Fl.fmul : Fl → Fl → Fl
  | .nan, _ => .nan
  | _, .nan => .nan
  | .inf b1, .inf b2 => .inf (xor b1 b2)
  | .inf b, .finite q => if q.isZero then .nan else .inf (xor b q.isNeg)
  | .finite q, .inf b => if q.isZero then .nan else .inf (xor b q.isNeg)
  | .finite p, .finite q => flRound (Q.mul p q)

/-- IEEE-754 binary64 division.  A zero finite divisor is treated as `+0`,
which is the only way a zero divisor arises in the embedded code (as the
result of `math.Sqrt`). -/
def Fl.fdiv : Fl → Fl → Fl
  | .nan, _ => .nan
  | _, .nan => .nan
  | .inf _, .inf _ => .nan
  | .inf b, .finite q => .inf (xor b q.isNeg)
  | .finite _, .inf _ => .finite Q.zero
  | .finite p, .finite q =>
    if q.isZero then (if p.isZero then .nan else .inf p.isNeg)
    else flRound (Q.div p q)

/-- Correctly rounded square root of a positive rational: the result grid is
the binary64 grid, the rounded significand is found by comparing against the
exact square of the halfway point. -/
def flSqrtPos (x : Q) : Fl :=
  let a := x.num.natAbs
  let b := x.den
  let e : Int := max (Int.fdiv (ilog2 a b) 2) (-1022)
  let s : Int := 52 - e
  let ab : Nat × Nat :=
    if 0 ≤ s then (a * pow2 (2 * s).toNat, b) else (a, b * pow2 (2 * (-s)).toNat)
  let t := isqrt (ab.1 * ab.2) / ab.2
  let halfSq := ab.2 * (2 * t + 1) * (2 * t + 1)
  let n := if halfSq < 4 * ab.1 then t + 1
           else if 4 * ab.1 < halfSq then t
           else if t % 2 = 0 then t else t + 1
  if 52 ≤ e then .finite (mkQ ((n : Int) * pow2 (e - 52).toNat) 1)
  else .finite (mkQ (n : Int) (pow2 (52 - e).toNat))

/-- IEEE-754 binary64 square root (`math.Sqrt`): NaN for negative arguments. -/
def Fl.fsqrt : Fl → Fl
  | .nan => .nan
  | .inf b => if b then .nan else .inf false
  | .finite q => if q.isNeg then .nan else if q.isZero then .finite Q.zero else flSqrtPos q

/-- Go's `<=` on `float64`: false whenever either operand is NaN. -/
def Fl.fle : Fl → Fl → Bool
  | .nan, _ => false
  | _, .nan => false
  | .inf b1, .inf b2 => b1 || !b2
  | .inf b, .finite _ => b
  | .finite _, .inf b => !b
  | .finite p, .finite q => Q.ble p q

/-- Go's `math.IsInf(x, 0)`. -/
def Fl.isInf : Fl → Bool
  | .inf _ => true
  | _ => false

/-- A `math/big.Float` value: an exact rational or a signed infinity (there is
no big NaN; operations that would need one panic with `big.ErrNaN` and are
modelled as `Option.none`). -/
inductive BigV where
  | fin (q : Q)
  | inf (neg : Bool)
  deriving DecidableEq, Repr

/-- `big.Float.IsInf`. -/
def isInfB : BigV → Bool
  | .inf _ => true
  | _ => false

/-- `big.Float.Signbit`. -/
def signbitB : BigV → Bool
  | .inf b => b
  | .fin q => q.isNeg

/-- `v.Cmp(zero) <= 0` for a fresh zero `big.Float`. -/
def cmpLeZeroB : BigV → Bool
  | .inf b => b
  | .fin q => Q.ble q Q.zero

/-- `big.Float.Add`; `none` models the `ErrNaN` panic on `+Inf + -Inf`. -/
def addB : BigV → BigV → Option BigV
  | .inf b1, .inf b2 => if b1 = b2 then some (.inf b1) else none
  | .inf b, .fin _ => some (.inf b)
  | .fin _, .inf b => some (.inf b)
  | .fin p, .fin q => some (.fin (Q.add p q))

def negB : BigV → BigV
  | .inf b => .inf (!b)
  | .fin q => .fin (Q.neg q)

/-- `big.Float.Sub`; panics (`none`) on same-signed infinities. -/
def subB (a b : BigV) : Option BigV := addB a (negB b)

/-- `big.Float.Mul`; `none` models the `ErrNaN` panic on `0 * Inf`. -/
def mulB : BigV → BigV → Option BigV
  | .inf b1, .inf b2 => some (.inf (xor b1 b2))
  | .inf b, .fin q => if q.isZero then none else some (.inf (xor b q.isNeg))
  | .fin q, .inf b => if q.isZero then none else some (.inf (xor b q.isNeg))
  | .fin p, .fin q => some (.fin (Q.mul p q))

/-- `big.Float.Quo`; `none` models the `ErrNaN` panics on `Inf / Inf` and
`0 / 0`; a nonzero finite value divided by zero gives a signed infinity. -/
def quoB : BigV → BigV → Option BigV
  | .inf _, .inf _ => none
  | .inf b, .fin q => some (.inf (xor b q.isNeg))
  | .fin _, .inf _ => some (.fin Q.zero)
  | .fin p, .fin q =>
    if q.isZero then (if p.isZero then none else some (.inf p.isNeg))
    else some (.fin (Q.div p q))

/-- Square root on the exact-rational idealisation of `big.Float`: exact at
perfect-square rationals, which are the only values any statement below
evaluates it at (`big.Float.Sqrt` rounds to the working precision; a
perfect-square dyadic of small height is computed exactly there too). -/
def bigSqrtQ (q : Q) : Q := mkQ (Int.ofNat (isqrt q.num.toNat)) (isqrt q.den)

/-- `big.Float.Sqrt`; `none` models the `ErrNaN` panic on negative input. -/
def sqrtB : BigV → Option BigV
  | .inf b => if b then none else some (.inf false)
  | .fin q => if q.isNeg then none else some (.fin (bigSqrtQ q))

/-- `big.Float.Float64` (first return value): correctly rounded to binary64. -/
def bigToFl : BigV → Fl
  | .inf b => .inf b
  | .fin q => flRound q

/-- The error values produced by the package.  Each constructor stands for one
distinct `errors.New` message:
`emptyInput` = "input slices cannot be empty" / "slices cannot be empty";
`lengthMismatch` = "input slices must have the same length" /
"slices must have the same length";
`tooFewPoints` = "correlation requires at least 2 data points";
`zeroVariance` = "correlation undefined: one or both variables have zero variance";
`infSameSign` = "correlation undefined: infinite values with same sign detected";
`infVarX` = "correlation undefined: infinite variance detected in X";
`infVarY` = "correlation undefined: infinite variance detected in Y";
`notImplemented` = "not implemented";
`unsupportedType i` = "unsupported type at index " + i;
`convFailed e` = "Pearson's calculation needs to convert to big, but conversion failed: " + e. -/
inductive Err where
  | emptyInput
  | lengthMismatch
  | tooFewPoints
  | zeroVariance
  | infSameSign
  | infVarX
  | infVarY
  | notImplemented
  | unsupportedType (i : Nat)
  | convFailed (e : Err)
  deriving DecidableEq, Repr

/-- A Go `(float64, error)` result, or a runtime panic. -/
inductive Res where
  | ret (v : Fl) (e : Option Err)
  | panicked
  deriving DecidableEq, Repr

/-- A value of a type satisfying the Go constraint `Numeric`
(`~int | ~int8 | ... | ~uint64 | ~float32 | ~float64`).  The integer variants
carry their exact integer value; the float variants carry the `float64` image
of the value (exact, since widening `float32 → float64` is exact).  `vNamed`
is a value of a defined type (e.g. `type MyInt int`) satisfying `Numeric` via
`~T`: it converts to `float64` like its underlying type but matches none of
the concrete-type cases of `mixedToBig`'s switch. -/
inductive NativeValue where
  | vInt (z : Int)
  | vInt8 (z : Int)
  | vInt16 (z : Int)
  | vInt32 (z : Int)
  | vInt64 (z : Int)
  | vUint (n : Nat)
  | vUint8 (n : Nat)
  | vUint16 (n : Nat)
  | vUint32 (n : Nat)
  | vUint64 (n : Nat)
  | vFloat32 (v : Fl)
  | vFloat64 (v : Fl)
  | vNamed (v : Fl)
  deriving DecidableEq, Repr

/-- Go's conversion `float64(v)`: exact for floats, round-to-nearest for
integers (an `int64` beyond 2^53 is rounded). -/
def toFl : NativeValue → Fl
  | .vInt z => flRound (Q.ofInt z)
  | .vInt8 z => flRound (Q.ofInt z)
  | .vInt16 z => flRound (Q.ofInt z)
  | .vInt32 z => flRound (Q.ofInt z)
  | .vInt64 z => flRound (Q.ofInt z)
  | .vUint n => flRound (Q.ofNat n)
  | .vUint8 n => flRound (Q.ofNat n)
  | .vUint16 n => flRound (Q.ofNat n)
  | .vUint32 n => flRound (Q.ofNat n)
  | .vUint64 n => flRound (Q.ofNat n)
  | .vFloat32 v => v
  | .vFloat64 v => v
  | .vNamed v => v

/-- A value of a type satisfying the Go constraint `MixedNumeric`
(`Numeric | *big.Float | *big.Int`).  The big variants are pointers and may be
nil (`none`). -/
inductive MixedValue where
  | mBigFloat (v : Option BigV)
  | mBigInt (z : Option Int)
  | mInt (z : Int)
  | mInt8 (z : Int)
  | mInt16 (z : Int)
  | mInt32 (z : Int)
  | mInt64 (z : Int)
  | mUint (n : Nat)
  | mUint8 (n : Nat)
  | mUint16 (n : Nat)
  | mUint32 (n : Nat)
  | mUint64 (n : Nat)
  | mFloat32 (v : Fl)
  | mFloat64 (v : Fl)
  | mUnsup (v : Fl)
  deriving DecidableEq, Repr

/-- The inclusion `Numeric ⊆ MixedNumeric`.  A named type hits the `default`
arm of `mixedToBig`'s type switch, hence `mUnsup`. -/
def natToMixed : NativeValue → MixedValue
  | .vInt z => .mInt z
  | .vInt8 z => .mInt8 z
  | .vInt16 z => .mInt16 z
  | .vInt32 z => .mInt32 z
  | .vInt64 z => .mInt64 z
  | .vUint n => .mUint n
  | .vUint8 n => .mUint8 n
  | .vUint16 n => .mUint16 n
  | .vUint32 n => .mUint32 n
  | .vUint64 n => .mUint64 n
  | .vFloat32 v => .mFloat32 v
  | .vFloat64 v => .mFloat64 v
  | .vNamed v => .mUnsup v

/-- Outcome of converting one element inside `mixedToBig`:
a big value, the `default` arm (unsupported type), or a panic. -/
inductive CRes where
  | val (b : BigV)
  | unsup
  | pan
  deriving DecidableEq, Repr

/-- One arm of `mixedToBig`'s type switch.  `Copy` of a nil `*big.Float` and
`SetInt` of a nil `*big.Int` dereference nil and panic; `SetFloat64` panics on
NaN; all other conversions (`Copy`, `SetInt`, `SetInt64`, `SetUint64`,
`SetFloat64`) are exact. -/
def convElem : MixedValue → CRes
  | .mBigFloat none => .pan
  | .mBigFloat (some v) => .val v
  | .mBigInt none => .pan
  | .mBigInt (some z) => .val (.fin (Q.ofInt z))
  | .mInt z => .val (.fin (Q.ofInt z))
  | .mInt8 z => .val (.fin (Q.ofInt z))
  | .mInt16 z => .val (.fin (Q.ofInt z))
  | .mInt32 z => .val (.fin (Q.ofInt z))
  | .mInt64 z => .val (.fin (Q.ofInt z))
  | .mUint n => .val (.fin (Q.ofNat n))
  | .mUint8 n => .val (.fin (Q.ofNat n))
  | .mUint16 n => .val (.fin (Q.ofNat n))
  | .mUint32 n => .val (.fin (Q.ofNat n))
  | .mUint64 n => .val (.fin (Q.ofNat n))
  | .mFloat32 .nan => .pan
  | .mFloat32 (.inf b) => .val (.inf b)
  | .mFloat32 (.finite q) => .val (.fin q)
  | .mFloat64 .nan => .pan
  | .mFloat64 (.inf b) => .val (.inf b)
  | .mFloat64 (.finite q) => .val (.fin q)
  | .mUnsup _ => .unsup

/-- Result of `mixedToBig`. -/
inductive MRes where
  | ok (l : List BigV)
  | err (e : Err)
  | panicked
  deriving DecidableEq, Repr

/-- The loop of `mixedToBig`, index-aware: the first unsupported element
produces the error naming its index, a nil big pointer panics. -/
def mixedToBigAux : Nat → List MixedValue → MRes
  | _, [] => .ok []
  | i, v :: rest =>
    match convElem v with
    | .pan => .panicked
    | .unsup => .err (.unsupportedType i)
    | .val b =>
      match mixedToBigAux (i+1) rest with
      | .ok l => .ok (b :: l)
      | r => r

/-- `mixedToBig`: convert a slice of `MixedNumeric` values to `[]*big.Float`. -/
def mixedToBig (data : List MixedValue) : MRes := mixedToBigAux 0 data

/-- A value of a type satisfying the Go constraint `BigNumeric`
(`*big.Float | *big.Int`); pointers may be nil. -/
inductive BigInput where
  | bf (v : Option BigV)
  | bi (z : Option Int)
  deriving DecidableEq, Repr

/-- The conversion at the head of `PearsonsBig` (`Copy` / `SetInt`); `none`
models the nil-pointer panic. -/
def convBigInput : BigInput → Option BigV
  | .bf none => none
  | .bf (some v) => some v
  | .bi none => none
  | .bi (some z) => some (.fin (Q.ofInt z))

/-- Convert a list of `BigNumeric` inputs, panicking (`none`) at the first
nil pointer. -/
def convList : List BigInput → Option (List BigV)
  | [] => some []
  | v :: rest => do
    let b ← convBigInput v
    let l ← convList rest
    pure (b :: l)

/-- `PearsonsBig`'s input-conversion loop.  Go converts `x[i]` and `y[i]`
interleaved in a single loop; the observable outcome (panic iff any element is
nil, otherwise the two value lists) is the same. -/
def bigConvert (xs ys : List BigInput) : Option (List BigV × List BigV) := do
  let xv ← convList xs
  let yv ← convList ys
  pure (xv, yv)

/-- The five running sums of `PearsonsBig`. -/
structure BSums5 where
  bsx : BigV
  bsy : BigV
  bsxy : BigV
  bsxx : BigV
  bsyy : BigV
  deriving DecidableEq, Repr

/-- One iteration of `PearsonsBig`'s accumulation loop. -/
def bigStep (s : BSums5) (p : BigV × BigV) : Option BSums5 := do
  let sx ← addB s.bsx p.1
  let sy ← addB s.bsy p.2
  let m1 ← mulB p.1 p.2
  let sxy ← addB s.bsxy m1
  let m2 ← mulB p.1 p.1
  let sxx ← addB s.bsxx m2
  let m3 ← mulB p.2 p.2
  let syy ← addB s.bsyy m3
  pure ⟨sx, sy, sxy, sxx, syy⟩

/-- `PearsonsBig`'s accumulation loop over the converted values. -/
def bigSums (xv yv : List BigV) : Option BSums5 :=
  (xv.zip yv).foldlM bigStep ⟨.fin Q.zero, .fin Q.zero, .fin Q.zero, .fin Q.zero, .fin Q.zero⟩

/-- Outcome of one checked subtraction in `PearsonsBig`. -/
inductive SubRes where
  | val (v : BigV)
  | fail (e : Err)
  | pan
  deriving DecidableEq, Repr

/-- The guard `m.IsInf() && s.IsInf() && m.Signbit() == s.Signbit()` placed
before each subtraction in `PearsonsBig`. -/
def sameSignInf (m s : BigV) : Bool := isInfB m && isInfB s && (signbitB m == signbitB s)

/-- A subtraction of `PearsonsBig`, as written in the source: the same-sign
infinity check short-circuits before the `Sub` primitive is invoked. -/
def checkedSub (msg : Err) (m s : BigV) : SubRes :=
  if sameSignInf m s then .fail msg
  else
    match subB m s with
    | some v => .val v
    | none => .pan

/-- The derivation tail of `PearsonsBig` (everything after the accumulation
loop), in source order: numerator with its same-sign-infinity guard, varX and
varY with theirs, the zero-variance check, denominator, quotient, and the
final `Float64` conversion.  Each guard is the source's
`a.IsInf() && b.IsInf() && a.Signbit() == b.Signbit()` check placed
immediately before the corresponding `Sub`; the `checkedSub` definition and
claim C3 record that this check short-circuits before `Sub` runs. -/
def pearsonsBigTail (s : BSums5) (n : Nat) : Res :=
  let nf : BigV := .fin (Q.ofNat n)
  match mulB s.bsx s.bsy with
  | none => .panicked
  | some p1 =>
    match quoB p1 nf with
    | none => .panicked
    | some t1 =>
      if sameSignInf s.bsxy t1 then .ret Fl.fzero (some .infSameSign)
      else
        match subB s.bsxy t1 with
        | none => .panicked
        | some numer =>
          match mulB s.bsx s.bsx with
          | none => .panicked
          | some p2 =>
            match quoB p2 nf with
            | none => .panicked
            | some t2 =>
              if sameSignInf s.bsxx t2 then .ret Fl.fzero (some .infVarX)
              else
                match subB s.bsxx t2 with
                | none => .panicked
                | some varX =>
                  match mulB s.bsy s.bsy with
                  | none => .panicked
                  | some p3 =>
                    match quoB p3 nf with
                    | none => .panicked
                    | some t3 =>
                      if sameSignInf s.bsyy t3 then .ret Fl.fzero (some .infVarY)
                      else
                        match subB s.bsyy t3 with
                        | none => .panicked
                        | some varY =>
                          if cmpLeZeroB varX || cmpLeZeroB varY then
                            .ret Fl.fzero (some .zeroVariance)
                          else
                            match mulB varX varY with
                            | none => .panicked
                            | some vv =>
                              match sqrtB vv with
                              | none => .panicked
                              | some den =>
                                match quoB numer den with
                                | none => .panicked
                                | some c => .ret (bigToFl c) none

/-- `PearsonsBig`: shape checks, input conversion, accumulation, derivation. -/
def PearsonsBig (xs ys : List BigInput) : Res :=
  if xs.length = 0 ∨ ys.length = 0 then .ret Fl.fzero (some .emptyInput)
  else if xs.length ≠ ys.length then .ret Fl.fzero (some .lengthMismatch)
  else if xs.length = 1 then .ret Fl.fzero (some .tooFewPoints)
  else
    match bigConvert xs ys with
    | none => .panicked
    | some (xv, yv) =>
      match bigSums xv yv with
      | none => .panicked
      | some s => pearsonsBigTail s xs.length

/-- The five running sums of `pearsonsSinglePass`. -/
structure Sums5 where
  msx : Fl
  msy : Fl
  msxy : Fl
  msxx : Fl
  msyy : Fl
  deriving DecidableEq, Repr

/-- One iteration of `pearsonsSinglePass`'s accumulation loop. -/
def machineStep (s : Sums5) (p : Fl × Fl) : Sums5 :=
  ⟨s.msx.fadd p.1, s.msy.fadd p.2, s.msxy.fadd (p.1.fmul p.2),
   s.msxx.fadd (p.1.fmul p.1), s.msyy.fadd (p.2.fmul p.2)⟩

/-- The single machine-precision pass over `float64(x[i])`, `float64(y[i])`. -/
def machineSums (x y : List NativeValue) : Sums5 :=
  ((x.map toFl).zip (y.map toFl)).foldl machineStep
    ⟨Fl.fzero, Fl.fzero, Fl.fzero, Fl.fzero, Fl.fzero⟩

/-- The overflow check `math.IsInf(sumX, 0) || ... || math.IsInf(sumYY, 0)`. -/
def anyInf5 (s : Sums5) : Bool :=
  s.msx.isInf || s.msy.isInf || s.msxy.isInf || s.msxx.isInf || s.msyy.isInf

/-- `[]*big.Float` values handed on to a `BigNumeric` entry point. -/
def wrapBig (l : List BigV) : List BigInput := l.map (fun v => BigInput.bf (some v))

/-- The escalation branch of `pearsonsSinglePass`: re-normalize the original
inputs via `mixedToBig` and hand them to `PearsonsBig`. -/
def pearsonsEscalate (x y : List NativeValue) : Res :=
  match mixedToBig (x.map natToMixed) with
  | .err e => .ret Fl.fzero (some (.convFailed e))
  | .panicked => .panicked
  | .ok bx =>
    match mixedToBig (y.map natToMixed) with
    | .err e => .ret Fl.fzero (some (.convFailed e))
    | .panicked => .panicked
    | .ok byv => PearsonsBig (wrapBig bx) (wrapBig byv)

/-- `numerator := sumXY - (sumX*sumY)/nf` of the machine path (the source
computes `nf := float64(n)` once; it is repeated here verbatim, which yields
the same value since the computation is pure). -/
def machineNumer (s : Sums5) (n : Nat) : Fl :=
  s.msxy.fsub ((s.msx.fmul s.msy).fdiv (flRound (Q.ofNat n)))

/-- `varX := sumXX - (sumX*sumX)/nf` of the machine path. -/
def machineVarX (s : Sums5) (n : Nat) : Fl :=
  s.msxx.fsub ((s.msx.fmul s.msx).fdiv (flRound (Q.ofNat n)))

/-- `varY := sumYY - (sumY*sumY)/nf` of the machine path. -/
def machineVarY (s : Sums5) (n : Nat) : Fl :=
  s.msyy.fsub ((s.msy.fmul s.msy).fdiv (flRound (Q.ofNat n)))

def pearsonsFinish (s : Sums5) (n : Nat) : Res :=
  if (machineVarX s n).fle Fl.fzero || (machineVarY s n).fle Fl.fzero then
    .ret Fl.fzero (some .zeroVariance)
  else
    .ret ((machineNumer s n).fdiv (((machineVarX s n).fmul (machineVarY s n)).fsqrt)) none

/-- `pearsonsSinglePass`: shape checks, one accumulation pass, overflow check
with escalation, derivation. -/
def pearsonsSinglePass (x y : List NativeValue) : Res :=
  if x.length = 0 ∨ y.length = 0 then .ret Fl.fzero (some .emptyInput)
  else if x.length ≠ y.length then .ret Fl.fzero (some .lengthMismatch)
  else if x.length = 1 then .ret Fl.fzero (some .tooFewPoints)
  else
    let s := machineSums x y
    if anyInf5 s then pearsonsEscalate x y else pearsonsFinish s x.length

/-- `Pearsons` delegates to the single-pass engine. -/
def Pearsons (x y : List NativeValue) : Res := pearsonsSinglePass x y

/-- `Spearmans` stub: `return 0, errors.New("not implemented")`. -/
def Spearmans (_ _ : List NativeValue) : Res := .ret Fl.fzero (some .notImplemented)

/-- `KendallsTau` stub. -/
def KendallsTau (_ _ : List NativeValue) : Res := .ret Fl.fzero (some .notImplemented)

/-- `GoodmanKruskals` stub. -/
def GoodmanKruskals (_ _ : List NativeValue) : Res := .ret Fl.fzero (some .notImplemented)

/-- `SpearmansBig` stub. -/
def SpearmansBig (_ _ : List BigInput) : Res := .ret Fl.fzero (some .notImplemented)

/-- `KendallsTauBig` stub. -/
def KendallsTauBig (_ _ : List BigInput) : Res := .ret Fl.fzero (some .notImplemented)

/-- `GoodmanKruskalsBig` stub. -/
def GoodmanKruskalsBig (_ _ : List BigInput) : Res := .ret Fl.fzero (some .notImplemented)

/-- The declared correlation kinds (`type Type int` with the four `iota`
constants `Pearson`, `Spearman`, `KendallTau`, `GoodmanKruskal`).  Go's
underlying type is `int`; an integer outside the four declared constants
takes the `default` arm of each dispatcher, which returns the non-nil error
"unsupported correlation type" — also not a nil-error path.  The enumeration
models the declared kind space, which is what the specification's dispatcher
contract ranges over. -/
inductive CKind where
  | pearson
  | spearman
  | kendallTau
  | goodmanKruskal
  deriving DecidableEq, Repr

/-- `Correlate`: dispatch on the correlation kind (no shape checks of its
own; each engine validates its inputs). -/
def Correlate (x y : List NativeValue) (k : CKind) : Res :=
  match k with
  | .pearson => Pearsons x y
  | .spearman => Spearmans x y
  | .kendallTau => KendallsTau x y
  | .goodmanKruskal => GoodmanKruskals x y

/-- `CorrelateBig`: shape checks (mismatch first, then emptiness), then
dispatch. -/
def CorrelateBig (xs ys : List BigInput) (k : CKind) : Res :=
  if xs.length ≠ ys.length then .ret Fl.fzero (some .lengthMismatch)
  else if xs.length = 0 then .ret Fl.fzero (some .emptyInput)
  else
    match k with
    | .pearson => PearsonsBig xs ys
    | .spearman => SpearmansBig xs ys
    | .kendallTau => KendallsTauBig xs ys
    | .goodmanKruskal => GoodmanKruskalsBig xs ys

/-- `CorrelateMixed`: shape checks, normalization of both sequences via
`mixedToBig`, then `CorrelateBig`. -/
def CorrelateMixed (x y : List MixedValue) (k : CKind) : Res :=
  if x.length ≠ y.length then .ret Fl.fzero (some .lengthMismatch)
  else if x.length = 0 then .ret Fl.fzero (some .emptyInput)
  else
    match mixedToBig x with
    | .err e => .ret Fl.fzero (some e)
    | .panicked => .panicked
    | .ok bx =>
      match mixedToBig y with
      | .err e => .ret Fl.fzero (some e)
      | .panicked => .panicked
      | .ok byv => CorrelateBig (wrapBig bx) (wrapBig byv) k

/-- `PearsonsMixed`: shape checks, normalization, then `PearsonsBig`. -/
def PearsonsMixed (x y : List MixedValue) : Res :=
  if x.length ≠ y.length then .ret Fl.fzero (some .lengthMismatch)
  else if x.length = 0 then .ret Fl.fzero (some .emptyInput)
  else
    match mixedToBig x with
    | .err e => .ret Fl.fzero (some e)
    | .panicked => .panicked
    | .ok bx =>
      match mixedToBig y with
      | .err e => .ret Fl.fzero (some e)
      | .panicked => .panicked
      | .ok byv => PearsonsBig (wrapBig bx) (wrapBig byv)

/-!
Heap model.  Claim C10 is about mutation: `*big.Float` / `*big.Int` arguments
are pointers into caller-owned storage, and the claim says the callee never
writes through them.  The pure embedding above cannot express that, so the
big-path functions are embedded a second time in explicit state-passing style:
a heap is a list of cells (addresses are indices), `new(...)` appends a fresh
cell, and every receiver-mutating `big.Float` method call is a write to the
receiver's address.  The frame theorems state that every cell present on entry
keeps its value, under every outcome including panics.
-/

/-- A heap cell: a `big.Float` or a `big.Int` object. -/
inductive HCell where
  | hf (v : BigV)
  | hi (z : Int)
  deriving DecidableEq, Repr

def dcell : HCell := .hf (.fin Q.zero)

/-- The heap: cell `a` lives at index `a`. -/
abbrev Heap := List HCell

def hget (h : Heap) (a : Nat) : HCell := h.getD a dcell

/-- `new(big.Float)` / `new(big.Int)`: append a fresh cell, return its address. -/
def halloc (h : Heap) (c : HCell) : Heap × Nat := (h ++ [c], h.length)

/-- A receiver-mutating method call: overwrite the cell at `a`. -/
def hwrite (h : Heap) (a : Nat) (c : HCell) : Heap := h.set a c

/-- Read an address as a `big.Float` value (a `big.Int` cell reads as its
value; in well-typed Go a `*big.Float` never aliases a `big.Int` cell). -/
def readF (h : Heap) (a : Nat) : BigV :=
  match hget h a with
  | .hf v => v
  | .hi z => .fin (Q.ofInt z)

/-- Read an address as a `big.Int` value. -/
def readI (h : Heap) (a : Nat) : Int :=
  match hget h a with
  | .hi z => z
  | .hf _ => 0

/-- A `BigNumeric` argument in the heap model: a possibly-nil pointer. -/
inductive HBigInput where
  | pf (a : Option Nat)
  | pi (a : Option Nat)
  deriving DecidableEq, Repr

/-- One input conversion of `PearsonsBig` (`new(big.Float).Copy(v)` /
`new(big.Float).SetInt(v)`); `none` is the nil-pointer panic.  The input cell
is only read; the copy goes to a fresh cell. -/
def hconvOne (h : Heap) : HBigInput → Option (Heap × Nat)
  | .pf none => none
  | .pf (some a) => some (halloc h (.hf (readF h a)))
  | .pi none => none
  | .pi (some a) => some (halloc h (.hf (.fin (Q.ofInt (readI h a)))))

/-- `PearsonsBig`'s conversion loop: `x[i]` then `y[i]`, per index. -/
def hconvLoop : Heap → List (HBigInput × HBigInput) → Heap × Option (List (Nat × Nat))
  | h, [] => (h, some [])
  | h, (xe, ye) :: rest =>
    match hconvOne h xe with
    | none => (h, none)
    | some (h1, ax) =>
      match hconvOne h1 ye with
      | none => (h1, none)
      | some (h2, ay) =>
        match hconvLoop h2 rest with
        | (h3, none) => (h3, none)
        | (h3, some l) => (h3, some ((ax, ay) :: l))

/-- A command of the straight-line heap code: allocate a fresh zero cell,
write the result of an operation (panicking if the operation does) into a
cell, or return early with an error when a guard fires. -/
inductive TCmd where
  | talloc
  | twrite (dst : Nat) (f : Heap → Option BigV)
  | tcheck (cond : Heap → Bool) (e : Err)

/-- Run a command list; `some r` is an early exit (error return or panic). -/
def runT : Heap → List TCmd → Heap × Option Res
  | h, [] => (h, none)
  | h, .talloc :: rest => runT (h ++ [dcell]) rest
  | h, .twrite dst f :: rest =>
    match f h with
    | none => (h, some .panicked)
    | some v => runT (hwrite h dst (.hf v)) rest
  | h, .tcheck cond e :: rest =>
    if cond h then (h, some (.ret Fl.fzero (some e))) else runT h rest

/-- The write targets of a command list. -/
def writeTargets (cmds : List TCmd) : List Nat :=
  cmds.filterMap fun c =>
    match c with
    | .twrite dst _ => some dst
    | _ => none

/-- One iteration of the accumulation loop of `PearsonsBig`, as writes:
`sumX.Add(sumX, fx)`, `sumY.Add(sumY, fy)`, `temp.Mul(fx, fy)`,
`sumXY.Add(sumXY, temp)`, `temp.Mul(fx, fx)`, `sumXX.Add(sumXX, temp)`,
`temp.Mul(fy, fy)`, `sumYY.Add(sumYY, temp)`. -/
def stepWrites (sx sy sxy sxx syy tmp ax ay : Nat) : List TCmd :=
  [.twrite sx (fun h => addB (readF h sx) (readF h ax)),
   .twrite sy (fun h => addB (readF h sy) (readF h ay)),
   .twrite tmp (fun h => mulB (readF h ax) (readF h ay)),
   .twrite sxy (fun h => addB (readF h sxy) (readF h tmp)),
   .twrite tmp (fun h => mulB (readF h ax) (readF h ax)),
   .twrite sxx (fun h => addB (readF h sxx) (readF h tmp)),
   .twrite tmp (fun h => mulB (readF h ay) (readF h ay)),
   .twrite syy (fun h => addB (readF h syy) (readF h tmp))]

/-- The derivation tail of `PearsonsBig` in the heap model, in source order.
`base` is the heap length when the tail starts, so the cells allocated by the
tail are `base` (`nf`), `base+1` (`numerator`), `base+2` (`varX`), `base+3`
(`varY`), `base+4` (`denominator`), `base+5` (`correlation`). -/
def tailCmds (sx sy sxy sxx syy tmp base n : Nat) : List TCmd :=
  let nf := base
  let numer := base + 1
  let vx := base + 2
  let vy := base + 3
  let den := base + 4
  let corr := base + 5
  [.talloc,
   .twrite nf (fun _ => some (.fin (Q.ofNat n))),
   .talloc,
   .twrite tmp (fun h => mulB (readF h sx) (readF h sy)),
   .twrite tmp (fun h => quoB (readF h tmp) (readF h nf)),
   .tcheck (fun h => sameSignInf (readF h sxy) (readF h tmp)) .infSameSign,
   .twrite numer (fun h => subB (readF h sxy) (readF h tmp)),
   .talloc,
   .twrite tmp (fun h => mulB (readF h sx) (readF h sx)),
   .twrite tmp (fun h => quoB (readF h tmp) (readF h nf)),
   .tcheck (fun h => sameSignInf (readF h sxx) (readF h tmp)) .infVarX,
   .twrite vx (fun h => subB (readF h sxx) (readF h tmp)),
   .talloc,
   .twrite tmp (fun h => mulB (readF h sy) (readF h sy)),
   .twrite tmp (fun h => quoB (readF h tmp) (readF h nf)),
   .tcheck (fun h => sameSignInf (readF h syy) (readF h tmp)) .infVarY,
   .twrite vy (fun h => subB (readF h syy) (readF h tmp)),
   .tcheck (fun h => cmpLeZeroB (readF h vx) || cmpLeZeroB (readF h vy)) .zeroVariance,
   .talloc,
   .twrite den (fun h => mulB (readF h vx) (readF h vy)),
   .twrite den (fun h => sqrtB (readF h den)),
   .talloc,
   .twrite corr (fun h => quoB (readF h numer) (readF h den))]

/-- `PearsonsBig` in the heap model. -/
def PearsonsBigH (h : Heap) (xs ys : List HBigInput) : Heap × Res :=
  if xs.length = 0 ∨ ys.length = 0 then (h, .ret Fl.fzero (some .emptyInput))
  else if xs.length ≠ ys.length then (h, .ret Fl.fzero (some .lengthMismatch))
  else if xs.length = 1 then (h, .ret Fl.fzero (some .tooFewPoints))
  else
    match hconvLoop h (xs.zip ys) with
    | (h1, none) => (h1, .panicked)
    | (h1, some addrs) =>
      -- the six allocations `sumX, sumY, sumXY, sumXX, sumYY, temp :=
      -- new(big.Float)`, written as one append of six fresh cells so the
      -- addresses are in closed form
      let sx := h1.length
      let sy := h1.length + 1
      let sxy := h1.length + 2
      let sxx := h1.length + 3
      let syy := h1.length + 4
      let tmp := h1.length + 5
      let h7 := h1 ++ [dcell, dcell, dcell, dcell, dcell, dcell]
      let loopCmds := (addrs.map (fun p => stepWrites sx sy sxy sxx syy tmp p.1 p.2)).flatten
      match runT h7 loopCmds with
      | (h8, some r) => (h8, r)
      | (h8, none) =>
        let base := h8.length
        match runT h8 (tailCmds sx sy sxy sxx syy tmp base xs.length) with
        | (h9, some r) => (h9, r)
        | (h9, none) => (h9, .ret (bigToFl (readF h9 (base + 5))) none)

/-- A `MixedNumeric` argument in the heap model: a possibly-nil big pointer or
a primitive value. -/
inductive HMixed where
  | hpf (a : Option Nat)
  | hpi (a : Option Nat)
  | hv (v : NativeValue)
  deriving DecidableEq, Repr

/-- Dereference a heap-model mixed argument to the value-level `MixedValue`
the type switch of `mixedToBig` sees. -/
def toMixedOfHeap (h : Heap) : HMixed → MixedValue
  | .hpf none => .mBigFloat none
  | .hpf (some a) => .mBigFloat (some (readF h a))
  | .hpi none => .mBigInt none
  | .hpi (some a) => .mBigInt (some (readI h a))
  | .hv v => natToMixed v

/-- Result of `mixedToBig` in the heap model. -/
inductive HMRes where
  | ok (l : List Nat)
  | err (e : Err)
  | panicked
  deriving DecidableEq, Repr

/-- `mixedToBig` in the heap model: each supported element is converted into a
freshly allocated `big.Float`; inputs are only read. -/
def mixedToBigH : Heap → Nat → List HMixed → Heap × HMRes
  | h, _, [] => (h, .ok [])
  | h, i, e :: rest =>
    match convElem (toMixedOfHeap h e) with
    | .pan => (h, .panicked)
    | .unsup => (h, .err (.unsupportedType i))
    | .val b =>
      let (h1, a) := halloc h (.hf b)
      match mixedToBigH h1 (i+1) rest with
      | (h2, .ok l) => (h2, .ok (a :: l))
      | (h2, r) => (h2, r)

/-- `CorrelateBig` in the heap model. -/
def CorrelateBigH (h : Heap) (xs ys : List HBigInput) (k : CKind) : Heap × Res :=
  if xs.length ≠ ys.length then (h, .ret Fl.fzero (some .lengthMismatch))
  else if xs.length = 0 then (h, .ret Fl.fzero (some .emptyInput))
  else
    match k with
    | .pearson => PearsonsBigH h xs ys
    | .spearman => (h, .ret Fl.fzero (some .notImplemented))
    | .kendallTau => (h, .ret Fl.fzero (some .notImplemented))
    | .goodmanKruskal => (h, .ret Fl.fzero (some .notImplemented))

/-- `CorrelateMixed` in the heap model. -/
def CorrelateMixedH (h : Heap) (x y : List HMixed) (k : CKind) : Heap × Res :=
  if x.length ≠ y.length then (h, .ret Fl.fzero (some .lengthMismatch))
  else if x.length = 0 then (h, .ret Fl.fzero (some .emptyInput))
  else
    match mixedToBigH h 0 x with
    | (h1, .err e) => (h1, .ret Fl.fzero (some e))
    | (h1, .panicked) => (h1, .panicked)
    | (h1, .ok ax) =>
      match mixedToBigH h1 0 y with
      | (h2, .err e) => (h2, .ret Fl.fzero (some e))
      | (h2, .panicked) => (h2, .panicked)
      | (h2, .ok ay) =>
        CorrelateBigH h2 (ax.map (fun a => HBigInput.pf (some a))) (ay.map (fun a => HBigInput.pf (some a))) k

/-!
Frame lemmas for the heap model: every function only writes to cells it
allocated itself, so all cells present on entry are preserved.
-/

/-- Every cell below `L` keeps its value, and the heap only grows past `L`. -/
def HExt (L : Nat) (h h' : Heap) : Prop :=
  L ≤ h'.length ∧ ∀ i, i < L → hget h' i = hget h i

theorem hext_refl {L : Nat} {h : Heap} (hL : L ≤ h.length) : HExt L h h :=
  ⟨hL, fun _ _ => rfl⟩

theorem hext_trans {L : Nat} {h1 h2 h3 : Heap} (a : HExt L h1 h2) (b : HExt L h2 h3) :
    HExt L h1 h3 :=
  ⟨b.1, fun i hi => (b.2 i hi).trans (a.2 i hi)⟩

theorem hext_append {L : Nat} {h : Heap} (t : List HCell) (hL : L ≤ h.length) :
    HExt L h (h ++ t) := by
  refine ⟨by simp; omega, fun i hi => ?_⟩
  simp [hget, List.getD_eq_getElem?_getD, List.getElem?_append, lt_of_lt_of_le hi hL]

theorem hext_write {L a : Nat} {h : Heap} (c : HCell) (hL : L ≤ h.length) (ha : L ≤ a) :
    HExt L h (hwrite h a c) := by
  refine ⟨by simp [hwrite]; omega, fun i hi => ?_⟩
  have hne : a ≠ i := by omega
  simp [hget, hwrite, List.getD_eq_getElem?_getD, List.getElem?_set_ne hne]

theorem writeTargets_talloc {rest : List TCmd} :
    writeTargets (.talloc :: rest) = writeTargets rest := by
  simp [writeTargets]

theorem writeTargets_tcheck {c : Heap → Bool} {e : Err} {rest : List TCmd} :
    writeTargets (.tcheck c e :: rest) = writeTargets rest := by
  simp [writeTargets]

theorem writeTargets_twrite {dst : Nat} {f : Heap → Option BigV} {rest : List TCmd} :
    writeTargets (.twrite dst f :: rest) = dst :: writeTargets rest := by
  simp [writeTargets]

theorem runT_ext {L : Nat} : ∀ (cmds : List TCmd) (h : Heap), L ≤ h.length →
    (∀ d ∈ writeTargets cmds, L ≤ d) → HExt L h (runT h cmds).1 := by
  intro cmds
  induction cmds with
  | nil => intro h hL _; exact hext_refl hL
  | cons c rest ih =>
    intro h hL hw
    cases c with
    | talloc =>
      have h1 := hext_append (L := L) [dcell] hL
      have h2 := ih (h ++ [dcell]) (by simp; omega) (by
        intro d hd; exact hw d (by rw [writeTargets_talloc]; exact hd))
      simpa [runT] using hext_trans h1 h2
    | twrite dst f =>
      cases hf : f h with
      | none => simpa [runT, hf] using hext_refl hL
      | some v =>
        have hdst : L ≤ dst := hw dst (by rw [writeTargets_twrite]; exact List.mem_cons_self _ _)
        have h1 := hext_write (L := L) (h := h) (.hf v) hL hdst
        have h2 := ih (hwrite h dst (.hf v)) (by simpa [hwrite] using hL) (by
          intro d hd; exact hw d (by rw [writeTargets_twrite]; exact List.mem_cons_of_mem _ hd))
        simpa [runT, hf] using hext_trans h1 h2
    | tcheck cond e =>
      by_cases hc : cond h
      · simpa [runT, hc] using hext_refl hL
      · have h2 := ih h hL (by
          intro d hd; exact hw d (by rw [writeTargets_tcheck]; exact hd))
        simpa [runT, hc] using h2

theorem hconvOne_ext {L : Nat} {h h' : Heap} {a : Nat} {e : HBigInput}
    (hL : L ≤ h.length) (he : hconvOne h e = some (h', a)) : HExt L h h' := by
  cases e with
  | pf o =>
    cases o with
    | none => simp [hconvOne] at he
    | some b =>
      simp [hconvOne, halloc] at he
      rw [← he.1]
      exact hext_append _ hL
  | pi o =>
    cases o with
    | none => simp [hconvOne] at he
    | some b =>
      simp [hconvOne, halloc] at he
      rw [← he.1]
      exact hext_append _ hL

theorem hconvLoop_ext {L : Nat} : ∀ (ps : List (HBigInput × HBigInput)) (h : Heap),
    L ≤ h.length → HExt L h (hconvLoop h ps).1 := by
  intro ps
  induction ps with
  | nil => intro h hL; exact hext_refl hL
  | cons p rest ih =>
    intro h hL
    cases hx : hconvOne h p.1 with
    | none => simpa [hconvLoop, hx] using hext_refl hL
    | some r1 =>
      obtain ⟨h1, ax⟩ := r1
      have e1 := hconvOne_ext (L := L) hL hx
      cases hy : hconvOne h1 p.2 with
      | none => simpa [hconvLoop, hx, hy] using e1
      | some r2 =>
        obtain ⟨h2, ay⟩ := r2
        have e2 := hconvOne_ext (L := L) e1.1 hy
        have e3 := ih h2 e2.1
        cases hr : hconvLoop h2 rest with
        | mk h3 o =>
          rw [hr] at e3
          cases o <;> simpa [hconvLoop, hx, hy, hr] using hext_trans e1 (hext_trans e2 e3)

theorem mixedToBigH_ext {L : Nat} : ∀ (l : List HMixed) (h : Heap) (i : Nat),
    L ≤ h.length → HExt L h (mixedToBigH h i l).1 := by
  intro l
  induction l with
  | nil => intro h i hL; exact hext_refl hL
  | cons e rest ih =>
    intro h i hL
    cases hc : convElem (toMixedOfHeap h e) with
    | pan => simpa [mixedToBigH, hc] using hext_refl hL
    | unsup => simpa [mixedToBigH, hc] using hext_refl hL
    | val b =>
      have e1 := hext_append (L := L) [HCell.hf b] hL
      have e2 := ih (h ++ [.hf b]) (i+1) (by simp; omega)
      cases hr : mixedToBigH (h ++ [.hf b]) (i+1) rest with
      | mk h2 o =>
        rw [hr] at e2
        cases o <;> simpa [mixedToBigH, hc, halloc, hr] using hext_trans e1 e2

theorem stepWrites_targets {sx sy sxy sxx syy tmp : Nat}
    (addrs : List (Nat × Nat)) {d : Nat}
    (hd : d ∈ writeTargets ((addrs.map (fun p => stepWrites sx sy sxy sxx syy tmp p.1 p.2)).flatten)) :
    d = sx ∨ d = sy ∨ d = sxy ∨ d = sxx ∨ d = syy ∨ d = tmp := by
  induction addrs with
  | nil => simp [writeTargets] at hd
  | cons p rest ih =>
    simp only [List.map_cons, List.flatten_cons, writeTargets, List.filterMap_append] at hd
    rcases List.mem_append.mp hd with h1 | h2
    · simp [stepWrites] at h1
      rcases h1 with h | h | h | h | h | h | h | h <;> simp [h]
    · exact ih (by simpa [writeTargets] using h2)

theorem tailCmds_targets {sx sy sxy sxx syy tmp base n d : Nat}
    (hd : d ∈ writeTargets (tailCmds sx sy sxy sxx syy tmp base n)) :
    d = tmp ∨ base ≤ d := by
  simp [tailCmds, writeTargets] at hd
  rcases hd with h | h | h | h | h | h | h | h | h | h | h | h | h <;> omega

theorem pearsonsBigH_ext {L : Nat} (h : Heap) (xs ys : List HBigInput)
    (hL : L ≤ h.length) : HExt L h (PearsonsBigH h xs ys).1 := by
  unfold PearsonsBigH
  split
  · exact hext_refl hL
  split
  · exact hext_refl hL
  split
  · exact hext_refl hL
  cases hcv : hconvLoop h (xs.zip ys) with
  | mk h1 o =>
    have e1 : HExt L h h1 := by
      have := hconvLoop_ext (L := L) (xs.zip ys) h hL
      rwa [hcv] at this
    have hL1 : L ≤ h1.length := e1.1
    cases o with
    | none => simpa using e1
    | some addrs =>
      simp only []
      have e2 : HExt L h1 (h1 ++ [dcell, dcell, dcell, dcell, dcell, dcell]) :=
        hext_append _ hL1
      have hL7 : L ≤ (h1 ++ [dcell, dcell, dcell, dcell, dcell, dcell]).length := e2.1
      have e3 := runT_ext (L := L)
        ((addrs.map (fun p => stepWrites h1.length (h1.length+1) (h1.length+2) (h1.length+3) (h1.length+4) (h1.length+5) p.1 p.2)).flatten)
        (h1 ++ [dcell, dcell, dcell, dcell, dcell, dcell]) hL7 (by
          intro d hd
          rcases stepWrites_targets addrs hd with hh | hh | hh | hh | hh | hh <;> omega)
      cases hr8 : runT (h1 ++ [dcell, dcell, dcell, dcell, dcell, dcell])
          ((addrs.map (fun p => stepWrites h1.length (h1.length+1) (h1.length+2) (h1.length+3) (h1.length+4) (h1.length+5) p.1 p.2)).flatten) with
      | mk h8 o8 =>
        rw [hr8] at e3
        have e123 : HExt L h h8 := hext_trans e1 (hext_trans e2 e3)
        cases o8 with
        | some r => simpa [hr8] using e123
        | none =>
          have hL8 : L ≤ h8.length := e123.1
          have e4 := runT_ext (L := L)
            (tailCmds h1.length (h1.length+1) (h1.length+2) (h1.length+3) (h1.length+4) (h1.length+5) h8.length xs.length)
            h8 hL8 (by
              intro d hd
              rcases tailCmds_targets hd with hh | hh <;> omega)
          cases hr9 : runT h8 (tailCmds h1.length (h1.length+1) (h1.length+2) (h1.length+3) (h1.length+4) (h1.length+5) h8.length xs.length) with
          | mk h9 o9 =>
            rw [hr9] at e4
            cases o9 <;> simpa [hr8, hr9] using hext_trans e123 e4

theorem correlateBigH_ext {L : Nat} (h : Heap) (xs ys : List HBigInput) (k : CKind)
    (hL : L ≤ h.length) : HExt L h (CorrelateBigH h xs ys k).1 := by
  unfold CorrelateBigH
  split
  · exact hext_refl hL
  split
  · exact hext_refl hL
  cases k with
  | pearson => exact pearsonsBigH_ext h xs ys hL
  | spearman => exact hext_refl hL
  | kendallTau => exact hext_refl hL
  | goodmanKruskal => exact hext_refl hL

theorem correlateMixedH_ext {L : Nat} (h : Heap) (x y : List HMixed) (k : CKind)
    (hL : L ≤ h.length) : HExt L h (CorrelateMixedH h x y k).1 := by
  unfold CorrelateMixedH
  split
  · exact hext_refl hL
  split
  · exact hext_refl hL
  cases hm1 : mixedToBigH h 0 x with
  | mk h1 o1 =>
    have e1 : HExt L h h1 := by
      have := mixedToBigH_ext (L := L) x h 0 hL
      rwa [hm1] at this
    cases o1 with
    | err e => simpa [hm1] using e1
    | panicked => simpa [hm1] using e1
    | ok ax =>
      cases hm2 : mixedToBigH h1 0 y with
      | mk h2 o2 =>
        have e2 : HExt L h1 h2 := by
          have := mixedToBigH_ext (L := L) y h1 0 e1.1
          rwa [hm2] at this
        cases o2 with
        | err e => simpa [hm1, hm2] using hext_trans e1 e2
        | panicked => simpa [hm1, hm2] using hext_trans e1 e2
        | ok ay =>
          have e3 := correlateBigH_ext (L := L) h2
            (ax.map (fun a => HBigInput.pf (some a))) (ay.map (fun a => HBigInput.pf (some a))) k (hext_trans e1 e2).1
          simpa [hm1, hm2] using hext_trans (hext_trans e1 e2) e3

/-!
Helper lemmas about the pure embedding.
-/

/-- The supported (non-nil, non-NaN, recognized) `MixedNumeric` values: those
on which `mixedToBig` performs a conversion (rather than panicking or hitting
the `default` arm). -/
def supported : MixedValue → Bool
  | .mBigFloat none => false
  | .mBigFloat (some _) => true
  | .mBigInt none => false
  | .mBigInt (some _) => true
  | .mInt _ => true
  | .mInt8 _ => true
  | .mInt16 _ => true
  | .mInt32 _ => true
  | .mInt64 _ => true
  | .mUint _ => true
  | .mUint8 _ => true
  | .mUint16 _ => true
  | .mUint32 _ => true
  | .mUint64 _ => true
  | .mFloat32 .nan => false
  | .mFloat32 _ => true
  | .mFloat64 .nan => false
  | .mFloat64 _ => true
  | .mUnsup _ => false

/-- The exact numeric value of a supported `MixedNumeric` element, as an
arbitrary-precision float. -/
def bigValueOf : MixedValue → BigV
  | .mBigFloat (some v) => v
  | .mBigFloat none => .fin Q.zero
  | .mBigInt (some z) => .fin (Q.ofInt z)
  | .mBigInt none => .fin Q.zero
  | .mInt z => .fin (Q.ofInt z)
  | .mInt8 z => .fin (Q.ofInt z)
  | .mInt16 z => .fin (Q.ofInt z)
  | .mInt32 z => .fin (Q.ofInt z)
  | .mInt64 z => .fin (Q.ofInt z)
  | .mUint n => .fin (Q.ofNat n)
  | .mUint8 n => .fin (Q.ofNat n)
  | .mUint16 n => .fin (Q.ofNat n)
  | .mUint32 n => .fin (Q.ofNat n)
  | .mUint64 n => .fin (Q.ofNat n)
  | .mFloat32 (.finite q) => .fin q
  | .mFloat32 (.inf b) => .inf b
  | .mFloat32 .nan => .fin Q.zero
  | .mFloat64 (.finite q) => .fin q
  | .mFloat64 (.inf b) => .inf b
  | .mFloat64 .nan => .fin Q.zero
  | .mUnsup _ => .fin Q.zero

theorem convElem_supported {v : MixedValue} (hv : supported v = true) :
    convElem v = .val (bigValueOf v) := by
  cases v with
  | mBigFloat o => cases o with
    | none => simp [supported] at hv
    | some b => rfl
  | mBigInt o => cases o with
    | none => simp [supported] at hv
    | some z => rfl
  | mFloat32 f => cases f with
    | finite q => rfl
    | inf b => rfl
    | nan => simp [supported] at hv
  | mFloat64 f => cases f with
    | finite q => rfl
    | inf b => rfl
    | nan => simp [supported] at hv
  | mUnsup f => simp [supported] at hv
  | mInt z => rfl
  | mInt8 z => rfl
  | mInt16 z => rfl
  | mInt32 z => rfl
  | mInt64 z => rfl
  | mUint n => rfl
  | mUint8 n => rfl
  | mUint16 n => rfl
  | mUint32 n => rfl
  | mUint64 n => rfl

theorem mixedToBigAux_all_supported : ∀ (data : List MixedValue) (i : Nat),
    (∀ v ∈ data, supported v = true) → mixedToBigAux i data = .ok (data.map bigValueOf) := by
  intro data
  induction data with
  | nil => intro i _; rfl
  | cons v rest ih =>
    intro i hall
    have hv := hall v (List.mem_cons_self _ _)
    have hrest := ih (i+1) (fun w hw => hall w (List.mem_cons_of_mem _ hw))
    simp [mixedToBigAux, convElem_supported hv, hrest]

theorem mixedToBigAux_first_unsupported : ∀ (pre : List MixedValue) (f : Fl)
    (rest : List MixedValue) (i : Nat), (∀ v ∈ pre, supported v = true) →
    mixedToBigAux i (pre ++ .mUnsup f :: rest) = .err (.unsupportedType (i + pre.length)) := by
  intro pre
  induction pre with
  | nil => intro f rest i _; simp [mixedToBigAux, convElem]
  | cons v p ih =>
    intro f rest i hall
    have hv := hall v (List.mem_cons_self _ _)
    have hrest := ih f rest (i+1) (fun w hw => hall w (List.mem_cons_of_mem _ hw))
    simp [mixedToBigAux, convElem_supported hv, hrest]
    omega

theorem mixedToBigAux_ok_length : ∀ (data : List MixedValue) (i : Nat) (l : List BigV),
    mixedToBigAux i data = .ok l → l.length = data.length := by
  intro data
  induction data with
  | nil => intro i l h; simp [mixedToBigAux] at h; simp [← h]
  | cons v rest ih =>
    intro i l h
    simp only [mixedToBigAux] at h
    cases hc : convElem v with
    | pan => rw [hc] at h; simp at h
    | unsup => rw [hc] at h; simp at h
    | val b =>
      rw [hc] at h
      cases hr : mixedToBigAux (i+1) rest with
      | ok l2 =>
        rw [hr] at h
        simp at h
        have := ih (i+1) l2 hr
        simp [← h, this]
      | err e => rw [hr] at h; simp at h
      | panicked => rw [hr] at h; simp at h

theorem pearsonsBigTail_err_zero {s : BSums5} {n : Nat} {v : Fl} {e : Err}
    (h : pearsonsBigTail s n = .ret v (some e)) : v = Fl.fzero := by
  simp only [pearsonsBigTail] at h
  repeat' split at h
  all_goals simp_all

theorem pearsonsBigTail_err_mem {s : BSums5} {n : Nat} {v : Fl} {e : Err}
    (h : pearsonsBigTail s n = .ret v (some e)) :
    e = .infSameSign ∨ e = .infVarX ∨ e = .infVarY ∨ e = .zeroVariance := by
  simp only [pearsonsBigTail] at h
  repeat' split at h
  all_goals simp_all

theorem pearsonsBig_err_zero {xs ys : List BigInput} {v : Fl} {e : Err}
    (h : PearsonsBig xs ys = .ret v (some e)) : v = Fl.fzero := by
  unfold PearsonsBig at h
  repeat' split at h
  all_goals first
    | exact pearsonsBigTail_err_zero h
    | simp_all

theorem pearsonsEscalate_err_zero {x y : List NativeValue} {v : Fl} {e : Err}
    (h : pearsonsEscalate x y = .ret v (some e)) : v = Fl.fzero := by
  unfold pearsonsEscalate at h
  repeat' split at h
  all_goals first
    | exact pearsonsBig_err_zero h
    | simp_all

theorem pearsonsFinish_err_zero {s : Sums5} {n : Nat} {v : Fl} {e : Err}
    (h : pearsonsFinish s n = .ret v (some e)) : v = Fl.fzero := by
  simp only [pearsonsFinish] at h
  split at h <;> simp_all

theorem pearsonsSinglePass_err_zero {x y : List NativeValue} {v : Fl} {e : Err}
    (h : pearsonsSinglePass x y = .ret v (some e)) : v = Fl.fzero := by
  simp only [pearsonsSinglePass] at h
  repeat' split at h
  all_goals first
    | exact pearsonsEscalate_err_zero h
    | exact pearsonsFinish_err_zero h
    | simp_all

theorem correlate_err_zero {x y : List NativeValue} {k : CKind} {v : Fl} {e : Err}
    (h : Correlate x y k = .ret v (some e)) : v = Fl.fzero := by
  cases k with
  | pearson => exact pearsonsSinglePass_err_zero h
  | spearman => simp [Correlate, Spearmans] at h; simp [h.1]
  | kendallTau => simp [Correlate, KendallsTau] at h; simp [h.1]
  | goodmanKruskal => simp [Correlate, GoodmanKruskals] at h; simp [h.1]

theorem correlateBig_err_zero {xs ys : List BigInput} {k : CKind} {v : Fl} {e : Err}
    (h : CorrelateBig xs ys k = .ret v (some e)) : v = Fl.fzero := by
  unfold CorrelateBig at h
  repeat' split at h
  all_goals first
    | exact pearsonsBig_err_zero h
    | simp_all [SpearmansBig, KendallsTauBig, GoodmanKruskalsBig]

theorem correlateMixed_err_zero {x y : List MixedValue} {k : CKind} {v : Fl} {e : Err}
    (h : CorrelateMixed x y k = .ret v (some e)) : v = Fl.fzero := by
  unfold CorrelateMixed at h
  repeat' split at h
  all_goals first
    | exact correlateBig_err_zero h
    | simp_all

theorem pearsonsMixed_err_zero {x y : List MixedValue} {v : Fl} {e : Err}
    (h : PearsonsMixed x y = .ret v (some e)) : v = Fl.fzero := by
  unfold PearsonsMixed at h
  repeat' split at h
  all_goals first
    | exact pearsonsBig_err_zero h
    | simp_all

theorem pearsonsBig_reduce {xs ys : List BigInput} {xv yv : List BigV} {s : BSums5}
    (hlen : xs.length = ys.length) (h2 : 2 ≤ xs.length)
    (hconv : bigConvert xs ys = some (xv, yv)) (hsums : bigSums xv yv = some s) :
    PearsonsBig xs ys = pearsonsBigTail s xs.length := by
  unfold PearsonsBig
  rw [if_neg (by omega), if_neg (by omega), if_neg (by omega)]
  simp only [hconv, hsums]

theorem singlePass_reduce {x y : List NativeValue} (hlen : x.length = y.length)
    (h2 : 2 ≤ x.length) :
    pearsonsSinglePass x y =
      if anyInf5 (machineSums x y) then pearsonsEscalate x y
      else pearsonsFinish (machineSums x y) x.length := by
  unfold pearsonsSinglePass
  rw [if_neg (by omega), if_neg (by omega), if_neg (by omega)]

theorem finish_zero_variance {s : Sums5} {n : Nat}
    (hlez : ((machineVarX s n).fle Fl.fzero || (machineVarY s n).fle Fl.fzero) = true) :
    pearsonsFinish s n = .ret Fl.fzero (some .zeroVariance) := by
  simp only [pearsonsFinish, hlez, if_true]

theorem finish_err_is_zero_variance {s : Sums5} {n : Nat} {v : Fl} {e : Err}
    (h : pearsonsFinish s n = .ret v (some e)) : e = .zeroVariance := by
  simp only [pearsonsFinish] at h
  split at h <;> simp_all

theorem tail_infSameSign {s : BSums5} {n : Nat} {p1 t1 : BigV}
    (hm1 : mulB s.bsx s.bsy = some p1)
    (hq1 : quoB p1 (.fin (Q.ofNat n)) = some t1)
    (hss : sameSignInf s.bsxy t1 = true) :
    pearsonsBigTail s n = .ret Fl.fzero (some .infSameSign) := by
  simp only [pearsonsBigTail, hm1, hq1, hss, if_true]

theorem tail_infVarX {s : BSums5} {n : Nat} {p1 t1 numer p2 t2 : BigV}
    (hm1 : mulB s.bsx s.bsy = some p1)
    (hq1 : quoB p1 (.fin (Q.ofNat n)) = some t1)
    (hss1 : sameSignInf s.bsxy t1 = false)
    (hsub1 : subB s.bsxy t1 = some numer)
    (hm2 : mulB s.bsx s.bsx = some p2)
    (hq2 : quoB p2 (.fin (Q.ofNat n)) = some t2)
    (hss2 : sameSignInf s.bsxx t2 = true) :
    pearsonsBigTail s n = .ret Fl.fzero (some .infVarX) := by
  simp only [pearsonsBigTail, hm1, hq1, hss1, hsub1, hm2, hq2, hss2, if_true,
    Bool.false_eq_true, if_false]

theorem tail_infVarY {s : BSums5} {n : Nat} {p1 t1 numer p2 t2 varX p3 t3 : BigV}
    (hm1 : mulB s.bsx s.bsy = some p1)
    (hq1 : quoB p1 (.fin (Q.ofNat n)) = some t1)
    (hss1 : sameSignInf s.bsxy t1 = false)
    (hsub1 : subB s.bsxy t1 = some numer)
    (hm2 : mulB s.bsx s.bsx = some p2)
    (hq2 : quoB p2 (.fin (Q.ofNat n)) = some t2)
    (hss2 : sameSignInf s.bsxx t2 = false)
    (hsub2 : subB s.bsxx t2 = some varX)
    (hm3 : mulB s.bsy s.bsy = some p3)
    (hq3 : quoB p3 (.fin (Q.ofNat n)) = some t3)
    (hss3 : sameSignInf s.bsyy t3 = true) :
    pearsonsBigTail s n = .ret Fl.fzero (some .infVarY) := by
  simp only [pearsonsBigTail, hm1, hq1, hss1, hsub1, hm2, hq2, hss2, hsub2, hm3, hq3, hss3,
    if_true, Bool.false_eq_true, if_false]

theorem tail_zero_variance {s : BSums5} {n : Nat} {p1 t1 numer p2 t2 varX p3 t3 varY : BigV}
    (hm1 : mulB s.bsx s.bsy = some p1)
    (hq1 : quoB p1 (.fin (Q.ofNat n)) = some t1)
    (hss1 : sameSignInf s.bsxy t1 = false)
    (hsub1 : subB s.bsxy t1 = some numer)
    (hm2 : mulB s.bsx s.bsx = some p2)
    (hq2 : quoB p2 (.fin (Q.ofNat n)) = some t2)
    (hss2 : sameSignInf s.bsxx t2 = false)
    (hsub2 : subB s.bsxx t2 = some varX)
    (hm3 : mulB s.bsy s.bsy = some p3)
    (hq3 : quoB p3 (.fin (Q.ofNat n)) = some t3)
    (hss3 : sameSignInf s.bsyy t3 = false)
    (hsub3 : subB s.bsyy t3 = some varY)
    (hlez : (cmpLeZeroB varX || cmpLeZeroB varY) = true) :
    pearsonsBigTail s n = .ret Fl.fzero (some .zeroVariance) := by
  simp only [pearsonsBigTail, hm1, hq1, hss1, hsub1, hm2, hq2, hss2, hsub2, hm3, hq3, hss3,
    hsub3, hlez, if_true, Bool.false_eq_true, if_false]

theorem wrapBig_length (l : List BigV) : (wrapBig l).length = l.length := by
  simp [wrapBig]

theorem mixedToBig_ok_length {data : List MixedValue} {l : List BigV}
    (h : mixedToBig data = .ok l) : l.length = data.length :=
  mixedToBigAux_ok_length data 0 l h

theorem pearsonsBig_not_shape {xs ys : List BigInput} {v : Fl} {e : Err}
    (hlen : xs.length = ys.length) (h2 : 2 ≤ xs.length)
    (h : PearsonsBig xs ys = .ret v (some e)) :
    e ≠ .emptyInput ∧ e ≠ .lengthMismatch ∧ e ≠ .tooFewPoints := by
  unfold PearsonsBig at h
  rw [if_neg (by omega), if_neg (by omega), if_neg (by omega)] at h
  repeat' split at h
  all_goals try (exact Res.noConfusion h)
  all_goals rcases pearsonsBigTail_err_mem h with hh | hh | hh | hh <;> simp [hh]

theorem pearsonsEscalate_not_shape {x y : List NativeValue} {v : Fl} {e : Err}
    (hlen : x.length = y.length) (h2 : 2 ≤ x.length)
    (h : pearsonsEscalate x y = .ret v (some e)) :
    e ≠ .emptyInput ∧ e ≠ .lengthMismatch ∧ e ≠ .tooFewPoints := by
  unfold pearsonsEscalate at h
  cases hx : mixedToBig (x.map natToMixed) with
  | err e1 =>
    rw [hx] at h
    simp at h
    simp [← h.2]
  | panicked => rw [hx] at h; simp at h
  | ok bx =>
    rw [hx] at h
    cases hy : mixedToBig (y.map natToMixed) with
    | err e1 =>
      rw [hy] at h
      simp at h
      simp [← h.2]
    | panicked => rw [hy] at h; simp at h
    | ok byv =>
      rw [hy] at h
      have hbx := mixedToBig_ok_length hx
      have hby := mixedToBig_ok_length hy
      simp at hbx hby
      refine pearsonsBig_not_shape ?_ ?_ h
      · simp [wrapBig_length, hbx, hby, hlen]
      · simp [wrapBig_length, hbx]; omega

/-- The big-typed (`*big.Float` / `*big.Int`) mixed values — the element
values possible when the Go type parameter is instantiated at a `BigNumeric`
type (lists are homogeneous in Go, so a slice with a nil big element has all
elements big-typed). -/
def isBigMixed : MixedValue → Bool
  | .mBigFloat _ => true
  | .mBigInt _ => true
  | _ => false

/-- A nil big pointer. -/
def isNilBig : MixedValue → Bool
  | .mBigFloat none => true
  | .mBigInt none => true
  | _ => false

theorem convElem_pan_of_nil {v : MixedValue} (hn : isNilBig v = true) :
    convElem v = .pan := by
  cases v <;> first
    | (rename_i o; cases o <;> simp_all [isNilBig, convElem])
    | simp_all [isNilBig, convElem]

theorem convElem_val_of_big_nonNil {v : MixedValue} (hb : isBigMixed v = true)
    (hn : isNilBig v = false) : ∃ b, convElem v = .val b := by
  cases v <;> first
    | (rename_i o; cases o <;> simp_all [isNilBig, isBigMixed, convElem])
    | simp_all [isNilBig, isBigMixed, convElem]

theorem mixedToBigAux_nil_panic : ∀ (data : List MixedValue) (i : Nat),
    (∀ v ∈ data, isBigMixed v = true) → (∃ v ∈ data, isNilBig v = true) →
    mixedToBigAux i data = .panicked := by
  intro data
  induction data with
  | nil => intro i _ hex; simp at hex
  | cons v rest ih =>
    intro i hall hex
    by_cases hn : isNilBig v = true
    · simp [mixedToBigAux, convElem_pan_of_nil hn]
    · have hv := hall v (List.mem_cons_self _ _)
      obtain ⟨w, hw, hwn⟩ := hex
      rcases List.mem_cons.mp hw with rfl | hw'
      · exact absurd hwn hn
      · have hrest := ih (i+1) (fun u hu => hall u (List.mem_cons_of_mem _ hu)) ⟨w, hw', hwn⟩
        obtain ⟨b, hb⟩ := convElem_val_of_big_nonNil hv (by simpa using hn)
        simp [mixedToBigAux, hb, hrest]

/-- A nil big pointer among `BigNumeric` inputs. -/
def isNilBigInput : BigInput → Bool
  | .bf none => true
  | .bi none => true
  | _ => false

theorem convList_nil_none : ∀ (l : List BigInput), (∃ v ∈ l, isNilBigInput v = true) →
    convList l = none := by
  intro l
  induction l with
  | nil => intro hex; simp at hex
  | cons v rest ih =>
    intro hex
    cases hcv : convBigInput v with
    | none => simp [convList, hcv]
    | some b =>
      have hvn : isNilBigInput v = false := by
        cases v <;> first
          | (rename_i o; cases o <;> simp_all [convBigInput, isNilBigInput])
          | simp_all [convBigInput, isNilBigInput]
      obtain ⟨w, hw, hwn⟩ := hex
      rcases List.mem_cons.mp hw with rfl | hw'
      · simp [hvn] at hwn
      · simp [convList, hcv, ih ⟨w, hw', hwn⟩]

theorem bigConvert_none_of_nil {xs ys : List BigInput}
    (hex : ∃ v ∈ xs, isNilBigInput v = true) : bigConvert xs ys = none := by
  unfold bigConvert
  simp [convList_nil_none xs hex]

theorem pearsonsBig_nil_panic {xs ys : List BigInput}
    (hlen : xs.length = ys.length) (h2 : 2 ≤ xs.length)
    (hex : ∃ v ∈ xs, isNilBigInput v = true) :
    PearsonsBig xs ys = .panicked := by
  unfold PearsonsBig
  rw [if_neg (by omega), if_neg (by omega), if_neg (by omega)]
  simp [bigConvert_none_of_nil hex]

/-!
The claim theorems.
-/

/-- C1 (as stated, refuted): the claim says every public entry point returns
either a finite coefficient in [-1, 1] with a nil error, or a non-nil error —
never a nil error with a non-finite coefficient.  Counterexample: for
`x = y = [0, 2^-500]` all five sums are finite, both variances are
`2^-1001 > 0`, but `varX * varY = 2^-2002` underflows to zero in binary64, so
`math.Sqrt` yields 0 and `numerator / denominator = 2^-1001 / 0 = +Inf`:
`Pearsons` returns `+Inf` with a nil error. -/
theorem c1_counterexample :
    Pearsons [.vFloat64 Fl.fzero, .vFloat64 (.finite (mkQ 1 (pow2 500)))]
        [.vFloat64 Fl.fzero, .vFloat64 (.finite (mkQ 1 (pow2 500)))]
      = .ret (.inf false) none ∧ (Fl.inf false).isInf = true := by
  constructor
  · decide
  · decide

/-- C1 (amended): every public entry point (`Pearsons`, `PearsonsBig`,
`PearsonsMixed`, `Correlate`, `CorrelateBig`, `CorrelateMixed`) that returns a
non-nil error returns it together with the zero coefficient, so a non-nil
error is never paired with a NaN, infinite, or other nonzero value; however a
nil-error return may carry a non-finite coefficient when the machine-precision
denominator underflows to zero (see `c1_counterexample`). -/
theorem c1_error_implies_zero_coefficient :
    (∀ (x y : List NativeValue) (v : Fl) (e : Err),
      Pearsons x y = .ret v (some e) → v = Fl.fzero) ∧
    (∀ (xs ys : List BigInput) (v : Fl) (e : Err),
      PearsonsBig xs ys = .ret v (some e) → v = Fl.fzero) ∧
    (∀ (x y : List MixedValue) (v : Fl) (e : Err),
      PearsonsMixed x y = .ret v (some e) → v = Fl.fzero) ∧
    (∀ (x y : List NativeValue) (k : CKind) (v : Fl) (e : Err),
      Correlate x y k = .ret v (some e) → v = Fl.fzero) ∧
    (∀ (xs ys : List BigInput) (k : CKind) (v : Fl) (e : Err),
      CorrelateBig xs ys k = .ret v (some e) → v = Fl.fzero) ∧
    (∀ (x y : List MixedValue) (k : CKind) (v : Fl) (e : Err),
      CorrelateMixed x y k = .ret v (some e) → v = Fl.fzero) :=
  ⟨fun _ _ _ _ h => pearsonsSinglePass_err_zero h,
   fun _ _ _ _ h => pearsonsBig_err_zero h,
   fun _ _ _ _ h => pearsonsMixed_err_zero h,
   fun _ _ _ _ _ h => correlate_err_zero h,
   fun _ _ _ _ _ h => correlateBig_err_zero h,
   fun _ _ _ _ _ h => correlateMixed_err_zero h⟩

/-- Witness for C1: at `x = y = []` the `Pearsons` hypothesis of the amended
theorem is satisfied with the empty-input error, and the coefficient is 0. -/
theorem c1_witness : Fl.fzero = Fl.fzero :=
  c1_error_implies_zero_coefficient.1 [] [] Fl.fzero Err.emptyInput (by decide)

/-- C2 (as stated, refuted in one corner): the claim says that whenever a sum
overflows, `Pearsons` returns exactly the result of `PearsonsBig` on the
converted original inputs, or a conversion error.  But when the other
sequence contains a NaN, `mixedToBig` reaches `big.Float.SetFloat64(NaN)`,
which panics (`big.ErrNaN`), so the call terminates in a panic — neither a
`PearsonsBig` result nor an error return.  Here `y`'s sums overflow while `x`
holds a NaN. -/
theorem c2_counterexample :
    anyInf5 (machineSums [.vFloat64 .nan, .vFloat64 (.finite (Q.ofInt 1))]
        [.vFloat64 (.finite (Q.ofNat (pow2 600))), .vFloat64 (.finite (Q.ofNat (pow2 601)))]) = true ∧
    Pearsons [.vFloat64 .nan, .vFloat64 (.finite (Q.ofInt 1))]
        [.vFloat64 (.finite (Q.ofNat (pow2 600))), .vFloat64 (.finite (Q.ofNat (pow2 601)))]
      = .panicked ∧
    ∀ (v : Fl) (e : Option Err),
      Pearsons [.vFloat64 .nan, .vFloat64 (.finite (Q.ofInt 1))]
          [.vFloat64 (.finite (Q.ofNat (pow2 600))), .vFloat64 (.finite (Q.ofNat (pow2 601)))]
        ≠ .ret v e := by
  refine ⟨by decide, by decide, fun v e hc => ?_⟩
  rw [(by decide : Pearsons [.vFloat64 .nan, .vFloat64 (.finite (Q.ofInt 1))]
      [.vFloat64 (.finite (Q.ofNat (pow2 600))), .vFloat64 (.finite (Q.ofNat (pow2 601)))]
      = Res.panicked)] at hc
  exact Res.noConfusion hc

/-- C2 (amended): for equal-length native sequences of length ≥ 2, if any of
the five machine-precision sums is infinite after the single pass, `Pearsons`
derives nothing from those sums; it normalizes the original input sequences
via `mixedToBig` and (a) returns exactly `PearsonsBig` applied to the two
converted sequences when both conversions succeed, (b)/(c) returns exactly the
conversion error (wrapped in the "conversion failed" message) when a
conversion fails on an unsupported element type, and (d)/(e) terminates in the
conversion's panic when a NaN element must be converted.  The two paths are
never mixed: the machine sums are abandoned entirely. -/
theorem c2_overflow_escalation :
    (∀ (x y : List NativeValue) (bx byv : List BigV),
      x.length = y.length → 2 ≤ x.length →
      anyInf5 (machineSums x y) = true →
      mixedToBig (x.map natToMixed) = .ok bx →
      mixedToBig (y.map natToMixed) = .ok byv →
      Pearsons x y = PearsonsBig (wrapBig bx) (wrapBig byv)) ∧
    (∀ (x y : List NativeValue) (e : Err),
      x.length = y.length → 2 ≤ x.length →
      anyInf5 (machineSums x y) = true →
      mixedToBig (x.map natToMixed) = .err e →
      Pearsons x y = .ret Fl.fzero (some (.convFailed e))) ∧
    (∀ (x y : List NativeValue) (bx : List BigV) (e : Err),
      x.length = y.length → 2 ≤ x.length →
      anyInf5 (machineSums x y) = true →
      mixedToBig (x.map natToMixed) = .ok bx →
      mixedToBig (y.map natToMixed) = .err e →
      Pearsons x y = .ret Fl.fzero (some (.convFailed e))) ∧
    (∀ (x y : List NativeValue),
      x.length = y.length → 2 ≤ x.length →
      anyInf5 (machineSums x y) = true →
      mixedToBig (x.map natToMixed) = .panicked →
      Pearsons x y = .panicked) ∧
    (∀ (x y : List NativeValue) (bx : List BigV),
      x.length = y.length → 2 ≤ x.length →
      anyInf5 (machineSums x y) = true →
      mixedToBig (x.map natToMixed) = .ok bx →
      mixedToBig (y.map natToMixed) = .panicked →
      Pearsons x y = .panicked) := by
  refine ⟨?_, ?_, ?_, ?_, ?_⟩
  · intro x y bx byv hlen h2 hinf hx hy
    unfold Pearsons
    rw [singlePass_reduce hlen h2, if_pos hinf]
    unfold pearsonsEscalate
    simp only [hx, hy]
  · intro x y e hlen h2 hinf hx
    unfold Pearsons
    rw [singlePass_reduce hlen h2, if_pos hinf]
    unfold pearsonsEscalate
    simp only [hx]
  · intro x y bx e hlen h2 hinf hx hy
    unfold Pearsons
    rw [singlePass_reduce hlen h2, if_pos hinf]
    unfold pearsonsEscalate
    simp only [hx, hy]
  · intro x y hlen h2 hinf hx
    unfold Pearsons
    rw [singlePass_reduce hlen h2, if_pos hinf]
    unfold pearsonsEscalate
    simp only [hx]
  · intro x y bx hlen h2 hinf hx hy
    unfold Pearsons
    rw [singlePass_reduce hlen h2, if_pos hinf]
    unfold pearsonsEscalate
    simp only [hx, hy]

/-- Witness for C2: `x = [2^600, 2^601]`, `y = [1, 2]`.  The squares overflow
binary64 (`(2^600)^2 = 2^1200 → +Inf`), so `sumXX` is infinite and the call
escalates: `Pearsons` returns exactly `PearsonsBig` on the exactly-converted
originals (both evaluate to coefficient 1 with nil error). -/
theorem c2_witness :
    Pearsons [.vFloat64 (.finite (Q.ofNat (pow2 600))), .vFloat64 (.finite (Q.ofNat (pow2 601)))]
        [.vFloat64 (.finite (Q.ofInt 1)), .vFloat64 (.finite (Q.ofInt 2))]
      = PearsonsBig (wrapBig [.fin (Q.ofNat (pow2 600)), .fin (Q.ofNat (pow2 601))])
          (wrapBig [.fin (Q.ofInt 1), .fin (Q.ofInt 2)]) :=
  c2_overflow_escalation.1
    [.vFloat64 (.finite (Q.ofNat (pow2 600))), .vFloat64 (.finite (Q.ofNat (pow2 601)))]
    [.vFloat64 (.finite (Q.ofInt 1)), .vFloat64 (.finite (Q.ofInt 2))]
    [.fin (Q.ofNat (pow2 600)), .fin (Q.ofNat (pow2 601))]
    [.fin (Q.ofInt 1), .fin (Q.ofInt 2)]
    (by decide) (by decide) (by decide) (by decide) (by decide)

/-- C3 (confirmed): in `PearsonsBig`, before each of the three subtractions
(numerator, varX, varY) the source checks whether minuend and subtrahend are
both infinite with the same sign and returns the corresponding "correlation
undefined" error without invoking the subtraction primitive.  Conjunct 1:
`checkedSub` — the check-then-subtract composition as written in the source —
short-circuits to the error before `Sub` when the guard holds.  Conjunct 2:
under the guard the `Sub` primitive itself would panic with `big.ErrNaN`
(`subB = none`), so the short-circuit is what prevents the fault.  Conjuncts
3-5: for inputs that reach the respective subtraction with a same-signed
infinite pair, `PearsonsBig` returns the specific error of that step —
"infinite values with same sign detected" for the numerator, "infinite
variance detected in X" for varX, "infinite variance detected in Y" for
varY — each check firing independently of the others. -/
theorem c3_same_sign_infinity_checks :
    (∀ (m s : BigV) (msg : Err), sameSignInf m s = true → checkedSub msg m s = .fail msg) ∧
    (∀ (m s : BigV), sameSignInf m s = true → subB m s = none) ∧
    (∀ (xs ys : List BigInput) (xv yv : List BigV) (s : BSums5) (p1 t1 : BigV),
      xs.length = ys.length → 2 ≤ xs.length →
      bigConvert xs ys = some (xv, yv) → bigSums xv yv = some s →
      mulB s.bsx s.bsy = some p1 → quoB p1 (.fin (Q.ofNat xs.length)) = some t1 →
      sameSignInf s.bsxy t1 = true →
      PearsonsBig xs ys = .ret Fl.fzero (some .infSameSign)) ∧
    (∀ (xs ys : List BigInput) (xv yv : List BigV) (s : BSums5) (p1 t1 numer p2 t2 : BigV),
      xs.length = ys.length → 2 ≤ xs.length →
      bigConvert xs ys = some (xv, yv) → bigSums xv yv = some s →
      mulB s.bsx s.bsy = some p1 → quoB p1 (.fin (Q.ofNat xs.length)) = some t1 →
      sameSignInf s.bsxy t1 = false → subB s.bsxy t1 = some numer →
      mulB s.bsx s.bsx = some p2 → quoB p2 (.fin (Q.ofNat xs.length)) = some t2 →
      sameSignInf s.bsxx t2 = true →
      PearsonsBig xs ys = .ret Fl.fzero (some .infVarX)) ∧
    (∀ (xs ys : List BigInput) (xv yv : List BigV) (s : BSums5)
        (p1 t1 numer p2 t2 varX p3 t3 : BigV),
      xs.length = ys.length → 2 ≤ xs.length →
      bigConvert xs ys = some (xv, yv) → bigSums xv yv = some s →
      mulB s.bsx s.bsy = some p1 → quoB p1 (.fin (Q.ofNat xs.length)) = some t1 →
      sameSignInf s.bsxy t1 = false → subB s.bsxy t1 = some numer →
      mulB s.bsx s.bsx = some p2 → quoB p2 (.fin (Q.ofNat xs.length)) = some t2 →
      sameSignInf s.bsxx t2 = false → subB s.bsxx t2 = some varX →
      mulB s.bsy s.bsy = some p3 → quoB p3 (.fin (Q.ofNat xs.length)) = some t3 →
      sameSignInf s.bsyy t3 = true →
      PearsonsBig xs ys = .ret Fl.fzero (some .infVarY)) := by
  refine ⟨?_, ?_, ?_, ?_, ?_⟩
  · intro m s msg hss
    simp [checkedSub, hss]
  · intro m s hss
    cases m <;> cases s <;> simp_all [sameSignInf, isInfB, signbitB, subB, negB, addB]
  · intro xs ys xv yv s p1 t1 hlen h2 hconv hsums hm1 hq1 hss
    rw [pearsonsBig_reduce hlen h2 hconv hsums]
    exact tail_infSameSign hm1 hq1 hss
  · intro xs ys xv yv s p1 t1 numer p2 t2 hlen h2 hconv hsums hm1 hq1 hss1 hsub1 hm2 hq2 hss2
    rw [pearsonsBig_reduce hlen h2 hconv hsums]
    exact tail_infVarX hm1 hq1 hss1 hsub1 hm2 hq2 hss2
  · intro xs ys xv yv s p1 t1 numer p2 t2 varX p3 t3 hlen h2 hconv hsums hm1 hq1 hss1 hsub1
      hm2 hq2 hss2 hsub2 hm3 hq3 hss3
    rw [pearsonsBig_reduce hlen h2 hconv hsums]
    exact tail_infVarY hm1 hq1 hss1 hsub1 hm2 hq2 hss2 hsub2 hm3 hq3 hss3

/-- Witness for C3: three concrete inputs, one per check.
With `x = [+Inf, 1]`, `y = [1, 2]` the numerator check fires; with
`x = [+Inf, 1]`, `y = [-1, 5]` the numerator check passes (the operands are
infinite with opposite signs) and the varX check fires; the mirrored input
makes the varY check fire. -/
theorem c3_witness :
    PearsonsBig [.bf (some (.inf false)), .bf (some (.fin (Q.ofInt 1)))]
        [.bf (some (.fin (Q.ofInt 1))), .bf (some (.fin (Q.ofInt 2)))]
      = .ret Fl.fzero (some .infSameSign) ∧
    PearsonsBig [.bf (some (.inf false)), .bf (some (.fin (Q.ofInt 1)))]
        [.bf (some (.fin (Q.ofInt (-1)))), .bf (some (.fin (Q.ofInt 5)))]
      = .ret Fl.fzero (some .infVarX) ∧
    PearsonsBig [.bf (some (.fin (Q.ofInt (-1)))), .bf (some (.fin (Q.ofInt 5)))]
        [.bf (some (.inf false)), .bf (some (.fin (Q.ofInt 1)))]
      = .ret Fl.fzero (some .infVarY) := by
  refine ⟨?_, ?_, ?_⟩
  · exact c3_same_sign_infinity_checks.2.2.1
      [.bf (some (.inf false)), .bf (some (.fin (Q.ofInt 1)))]
      [.bf (some (.fin (Q.ofInt 1))), .bf (some (.fin (Q.ofInt 2)))]
      [.inf false, .fin (Q.ofInt 1)] [.fin (Q.ofInt 1), .fin (Q.ofInt 2)]
      ⟨.inf false, .fin (Q.ofInt 3), .inf false, .inf false, .fin (Q.ofInt 5)⟩
      (.inf false) (.inf false)
      (by decide) (by decide) (by decide) (by decide) (by decide) (by decide) (by decide)
  · exact c3_same_sign_infinity_checks.2.2.2.1
      [.bf (some (.inf false)), .bf (some (.fin (Q.ofInt 1)))]
      [.bf (some (.fin (Q.ofInt (-1)))), .bf (some (.fin (Q.ofInt 5)))]
      [.inf false, .fin (Q.ofInt 1)] [.fin (Q.ofInt (-1)), .fin (Q.ofInt 5)]
      ⟨.inf false, .fin (Q.ofInt 4), .inf true, .inf false, .fin (Q.ofInt 26)⟩
      (.inf false) (.inf false) (.inf true) (.inf false) (.inf false)
      (by decide) (by decide) (by decide) (by decide) (by decide) (by decide) (by decide)
      (by decide) (by decide) (by decide) (by decide)
  · exact c3_same_sign_infinity_checks.2.2.2.2
      [.bf (some (.fin (Q.ofInt (-1)))), .bf (some (.fin (Q.ofInt 5)))]
      [.bf (some (.inf false)), .bf (some (.fin (Q.ofInt 1)))]
      [.fin (Q.ofInt (-1)), .fin (Q.ofInt 5)] [.inf false, .fin (Q.ofInt 1)]
      ⟨.fin (Q.ofInt 4), .inf false, .inf true, .fin (Q.ofInt 26), .inf false⟩
      (.inf false) (.inf false) (.inf true) (.fin (Q.ofInt 16)) (.fin (Q.ofInt 8))
      (.fin (Q.ofInt 18)) (.inf false) (.inf false)
      (by decide) (by decide) (by decide) (by decide) (by decide) (by decide) (by decide)
      (by decide) (by decide) (by decide) (by decide) (by decide) (by decide) (by decide)
      (by decide)

/-- C4 (confirmed): `Correlate(x, y, Pearson)` returns a non-nil error before
any accumulation whenever a sequence is empty (conjunct 1), the lengths
differ (conjunct 2), or the common length is 1 (conjunct 3); and for every
pair of equal-length sequences of length ≥ 2 the shape checks pass: no
shape error (`emptyInput`, `lengthMismatch`, `tooFewPoints`) is ever returned
(conjunct 4).  In the embedding the shape checks sit syntactically before the
accumulation pass, so an error return from them involves no arithmetic. -/
theorem c4_shape_checks :
    (∀ (x y : List NativeValue), x.length = 0 ∨ y.length = 0 →
      Correlate x y .pearson = .ret Fl.fzero (some .emptyInput)) ∧
    (∀ (x y : List NativeValue), x.length ≠ 0 → y.length ≠ 0 → x.length ≠ y.length →
      Correlate x y .pearson = .ret Fl.fzero (some .lengthMismatch)) ∧
    (∀ (x y : List NativeValue), x.length = 1 → y.length = 1 →
      Correlate x y .pearson = .ret Fl.fzero (some .tooFewPoints)) ∧
    (∀ (x y : List NativeValue) (v : Fl) (e : Err),
      x.length = y.length → 2 ≤ x.length →
      Correlate x y .pearson = .ret v (some e) →
      e ≠ .emptyInput ∧ e ≠ .lengthMismatch ∧ e ≠ .tooFewPoints) := by
  refine ⟨?_, ?_, ?_, ?_⟩
  · intro x y hsh
    show pearsonsSinglePass x y = _
    unfold pearsonsSinglePass
    rw [if_pos hsh]
  · intro x y hx hy hne
    show pearsonsSinglePass x y = _
    unfold pearsonsSinglePass
    rw [if_neg (by omega), if_pos hne]
  · intro x y hx hy
    show pearsonsSinglePass x y = _
    unfold pearsonsSinglePass
    rw [if_neg (by omega), if_neg (by omega), if_pos hx]
  · intro x y v e hlen h2 h
    replace h : pearsonsSinglePass x y = .ret v (some e) := h
    rw [singlePass_reduce hlen h2] at h
    split at h
    · exact pearsonsEscalate_not_shape hlen h2 h
    · have := finish_err_is_zero_variance h
      simp [this]

/-- Witness for C4: each conjunct applied at a concrete input — empty `x`,
mismatched lengths, a single pair, and the degenerate-but-well-shaped input
`x = [3,3,3,3]`, `y = [1,2,3,4]` whose error is the (non-shape) zero-variance
error. -/
theorem c4_witness :
    Correlate [] [.vInt 1] .pearson = .ret Fl.fzero (some .emptyInput) ∧
    Correlate [.vInt 1] [.vInt 1, .vInt 2] .pearson = .ret Fl.fzero (some .lengthMismatch) ∧
    Correlate [.vInt 1] [.vInt 2] .pearson = .ret Fl.fzero (some .tooFewPoints) ∧
    (Err.zeroVariance ≠ Err.emptyInput ∧ Err.zeroVariance ≠ Err.lengthMismatch ∧
      Err.zeroVariance ≠ Err.tooFewPoints) := by
  refine ⟨?_, ?_, ?_, ?_⟩
  · exact c4_shape_checks.1 [] [.vInt 1] (by decide)
  · exact c4_shape_checks.2.1 [.vInt 1] [.vInt 1, .vInt 2] (by decide) (by decide) (by decide)
  · exact c4_shape_checks.2.2.1 [.vInt 1] [.vInt 2] (by decide) (by decide)
  · exact c4_shape_checks.2.2.2 [.vInt 3, .vInt 3, .vInt 3, .vInt 3]
      [.vInt 1, .vInt 2, .vInt 3, .vInt 4] Fl.fzero Err.zeroVariance
      (by decide) (by decide) (by decide)

/-- C5 (confirmed): when the computed variance of either variable is zero or
negative after the subtraction step, both paths fail with the zero-variance
(`DegenerateInput`) error.  Conjunct 1: the machine path, for any shape-valid
input whose sums are finite and whose computed `varX <= 0 || varY <= 0` check
fires.  Conjunct 2: the arbitrary-precision path, for any input that reaches
the zero-variance check (conversion, accumulation and the three infinity
checks all pass) with `varX.Cmp(zero) <= 0 || varY.Cmp(zero) <= 0`.
Conjunct 3: the claim's concrete scenario
`Correlate([3,3,3,3], [1,2,3,4], Pearson)`. -/
theorem c5_zero_variance :
    (∀ (x y : List NativeValue),
      x.length = y.length → 2 ≤ x.length →
      anyInf5 (machineSums x y) = false →
      ((machineVarX (machineSums x y) x.length).fle Fl.fzero ||
        (machineVarY (machineSums x y) x.length).fle Fl.fzero) = true →
      Pearsons x y = .ret Fl.fzero (some .zeroVariance)) ∧
    (∀ (xs ys : List BigInput) (xv yv : List BigV) (s : BSums5)
        (p1 t1 numer p2 t2 varX p3 t3 varY : BigV),
      xs.length = ys.length → 2 ≤ xs.length →
      bigConvert xs ys = some (xv, yv) → bigSums xv yv = some s →
      mulB s.bsx s.bsy = some p1 → quoB p1 (.fin (Q.ofNat xs.length)) = some t1 →
      sameSignInf s.bsxy t1 = false → subB s.bsxy t1 = some numer →
      mulB s.bsx s.bsx = some p2 → quoB p2 (.fin (Q.ofNat xs.length)) = some t2 →
      sameSignInf s.bsxx t2 = false → subB s.bsxx t2 = some varX →
      mulB s.bsy s.bsy = some p3 → quoB p3 (.fin (Q.ofNat xs.length)) = some t3 →
      sameSignInf s.bsyy t3 = false → subB s.bsyy t3 = some varY →
      (cmpLeZeroB varX || cmpLeZeroB varY) = true →
      PearsonsBig xs ys = .ret Fl.fzero (some .zeroVariance)) ∧
    Correlate [.vInt 3, .vInt 3, .vInt 3, .vInt 3] [.vInt 1, .vInt 2, .vInt 3, .vInt 4] .pearson
      = .ret Fl.fzero (some .zeroVariance) := by
  refine ⟨?_, ?_, by decide⟩
  · intro x y hlen h2 hinf hlez
    unfold Pearsons
    rw [singlePass_reduce hlen h2, if_neg (by simp [hinf])]
    exact finish_zero_variance hlez
  · intro xs ys xv yv s p1 t1 numer p2 t2 varX p3 t3 varY hlen h2 hconv hsums hm1 hq1 hss1
      hsub1 hm2 hq2 hss2 hsub2 hm3 hq3 hss3 hsub3 hlez
    rw [pearsonsBig_reduce hlen h2 hconv hsums]
    exact tail_zero_variance hm1 hq1 hss1 hsub1 hm2 hq2 hss2 hsub2 hm3 hq3 hss3 hsub3 hlez

/-- Witness for C5: the machine-path conjunct at `x = [3,3,3,3]`,
`y = [1,2,3,4]` (varX computes to exactly 0) and the big-path conjunct at the
same values supplied as `*big.Int`s. -/
theorem c5_witness :
    Pearsons [.vInt 3, .vInt 3, .vInt 3, .vInt 3] [.vInt 1, .vInt 2, .vInt 3, .vInt 4]
      = .ret Fl.fzero (some .zeroVariance) ∧
    PearsonsBig [.bi (some 3), .bi (some 3), .bi (some 3), .bi (some 3)]
        [.bi (some 1), .bi (some 2), .bi (some 3), .bi (some 4)]
      = .ret Fl.fzero (some .zeroVariance) := by
  constructor
  · exact c5_zero_variance.1 [.vInt 3, .vInt 3, .vInt 3, .vInt 3]
      [.vInt 1, .vInt 2, .vInt 3, .vInt 4] (by decide) (by decide) (by decide) (by decide)
  · exact c5_zero_variance.2.1
      [.bi (some 3), .bi (some 3), .bi (some 3), .bi (some 3)]
      [.bi (some 1), .bi (some 2), .bi (some 3), .bi (some 4)]
      [.fin (Q.ofInt 3), .fin (Q.ofInt 3), .fin (Q.ofInt 3), .fin (Q.ofInt 3)]
      [.fin (Q.ofInt 1), .fin (Q.ofInt 2), .fin (Q.ofInt 3), .fin (Q.ofInt 4)]
      ⟨.fin (Q.ofInt 12), .fin (Q.ofInt 10), .fin (Q.ofInt 30), .fin (Q.ofInt 36),
        .fin (Q.ofInt 30)⟩
      (.fin (Q.ofInt 120)) (.fin (Q.ofInt 30)) (.fin (Q.ofInt 0))
      (.fin (Q.ofInt 144)) (.fin (Q.ofInt 36)) (.fin (Q.ofInt 0))
      (.fin (Q.ofInt 100)) (.fin (Q.ofInt 25)) (.fin (Q.ofInt 5))
      (by decide) (by decide) (by decide) (by decide) (by decide) (by decide) (by decide)
      (by decide) (by decide) (by decide) (by decide) (by decide) (by decide) (by decide)
      (by decide) (by decide) (by decide)

/-- C6 (confirmed): `mixedToBig` on a sequence whose elements are all of the
supported variants returns, with nil error, the list of their exact values in
the same order (hence the same length): conjunct 1, where `bigValueOf` is the
mathematical value of the element (the source conversions `Copy`, `SetInt`,
`SetInt64`, `SetUint64`, and `SetFloat64` — the latter applied to the exact
widening `float64(float32)` — introduce no rounding).  Conjunct 2: the length
preservation read off directly for any successful conversion.  Conjunct 3: if
the element at index `i` has a runtime representation outside the recognized
set (the `default` arm of the type switch) and the elements before it are
supported, the result is the `UnsupportedType` error naming index `i`. -/
theorem c6_mixedToBig_exact_conversion :
    (∀ (data : List MixedValue), (∀ v ∈ data, supported v = true) →
      mixedToBig data = .ok (data.map bigValueOf)) ∧
    (∀ (data : List MixedValue) (l : List BigV),
      mixedToBig data = .ok l → l.length = data.length) ∧
    (∀ (pre : List MixedValue) (f : Fl) (rest : List MixedValue),
      (∀ v ∈ pre, supported v = true) →
      mixedToBig (pre ++ .mUnsup f :: rest) = .err (.unsupportedType pre.length)) := by
  refine ⟨?_, ?_, ?_⟩
  · intro data hall
    exact mixedToBigAux_all_supported data 0 hall
  · intro data l h
    exact mixedToBig_ok_length h
  · intro pre f rest hall
    have := mixedToBigAux_first_unsupported pre f rest 0 hall
    simpa using this

/-- Witness for C6: a heterogeneous supported list (an int, a float64, a
`*big.Int`, a uint8) converts exactly and in order; a list whose second
element is of an unrecognized type yields the error naming index 1. -/
theorem c6_witness :
    mixedToBig [.mInt 3, .mFloat64 (.finite (mkQ 1 2)), .mBigInt (some 7), .mUint8 255]
      = .ok [.fin (Q.ofInt 3), .fin (mkQ 1 2), .fin (Q.ofInt 7), .fin (Q.ofNat 255)] ∧
    mixedToBig [.mInt 3, .mUnsup (.finite (Q.ofInt 4)), .mBigFloat (some (.fin Q.zero))]
      = .err (.unsupportedType 1) := by
  constructor
  · exact c6_mixedToBig_exact_conversion.1
      [.mInt 3, .mFloat64 (.finite (mkQ 1 2)), .mBigInt (some 7), .mUint8 255] (by decide)
  · exact c6_mixedToBig_exact_conversion.2.2 [.mInt 3] (.finite (Q.ofInt 4))
      [.mBigFloat (some (.fin Q.zero))] (by decide)

/-- C7 (confirmed): a nil `*big.Float` / `*big.Int` element makes
normalization panic instead of returning a reported error.  Conjunct 1:
`mixedToBig` on a big-typed sequence (in Go the slice is homogeneous at a
`BigNumeric` type, so all elements are big-typed) containing a nil panics.
Conjunct 2: consequently `CorrelateMixed` on such an `x` (shape checks
passing) panics for every kind, returning no error value at all — in
particular no `InvalidInput` error, which does not exist in the package.
Conjunct 3: `CorrelateBig(..., Pearson)` panics likewise when a nil appears
among well-shaped inputs, inside `PearsonsBig`'s conversion loop. -/
theorem c7_nil_big_panics :
    (∀ (data : List MixedValue),
      (∀ v ∈ data, isBigMixed v = true) → (∃ v ∈ data, isNilBig v = true) →
      mixedToBig data = .panicked) ∧
    (∀ (x y : List MixedValue) (k : CKind),
      x.length = y.length → x.length ≠ 0 →
      (∀ v ∈ x, isBigMixed v = true) → (∃ v ∈ x, isNilBig v = true) →
      CorrelateMixed x y k = .panicked) ∧
    (∀ (xs ys : List BigInput),
      xs.length = ys.length → 2 ≤ xs.length →
      (∃ v ∈ xs, isNilBigInput v = true) →
      CorrelateBig xs ys .pearson = .panicked) := by
  refine ⟨?_, ?_, ?_⟩
  · intro data hall hex
    exact mixedToBigAux_nil_panic data 0 hall hex
  · intro x y k hlen hne hall hex
    unfold CorrelateMixed
    rw [if_neg (by omega), if_neg (by omega)]
    simp only [mixedToBig, mixedToBigAux_nil_panic x 0 hall hex]
  · intro xs ys hlen h2 hex
    unfold CorrelateBig
    rw [if_neg (by omega), if_neg (by omega)]
    exact pearsonsBig_nil_panic hlen h2 hex

/-- Witness for C7: a nil `*big.Float` at index 1 of a two-element big-typed
sequence makes `mixedToBig`, `CorrelateMixed` and `CorrelateBig` panic. -/
theorem c7_witness :
    mixedToBig [.mBigFloat (some (.fin (Q.ofInt 1))), .mBigFloat none] = .panicked ∧
    CorrelateMixed [.mBigFloat (some (.fin (Q.ofInt 1))), .mBigFloat none]
      [.mInt 1, .mInt 2] .pearson = .panicked ∧
    CorrelateBig [.bf (some (.fin (Q.ofInt 1))), .bf none]
      [.bf (some (.fin (Q.ofInt 1))), .bf (some (.fin (Q.ofInt 2)))] .pearson = .panicked := by
  refine ⟨?_, ?_, ?_⟩
  · exact c7_nil_big_panics.1 [.mBigFloat (some (.fin (Q.ofInt 1))), .mBigFloat none]
      (by decide) ⟨.mBigFloat none, by decide⟩
  · exact c7_nil_big_panics.2.1 [.mBigFloat (some (.fin (Q.ofInt 1))), .mBigFloat none]
      [.mInt 1, .mInt 2] .pearson (by decide) (by decide) (by decide)
      ⟨.mBigFloat none, by decide⟩
  · exact c7_nil_big_panics.2.2 [.bf (some (.fin (Q.ofInt 1))), .bf none]
      [.bf (some (.fin (Q.ofInt 1))), .bf (some (.fin (Q.ofInt 2)))]
      (by decide) (by decide) ⟨.bf none, by decide⟩

/-- C8 (confirmed): the two claim scenarios, evaluated exactly through the
machine-precision path (every intermediate sum, product and the square root
are exactly representable): `Correlate([1..5], [2,4,6,8,10], Pearson)` is
exactly 1 with nil error and `Correlate([1..5], [10,8,6,4,2], Pearson)` is
exactly -1 with nil error. -/
theorem c8_perfect_correlation_scenarios :
    Correlate [.vInt 1, .vInt 2, .vInt 3, .vInt 4, .vInt 5]
        [.vInt 2, .vInt 4, .vInt 6, .vInt 8, .vInt 10] .pearson
      = .ret (.finite (Q.ofInt 1)) none ∧
    Correlate [.vInt 1, .vInt 2, .vInt 3, .vInt 4, .vInt 5]
        [.vInt 10, .vInt 8, .vInt 6, .vInt 4, .vInt 2] .pearson
      = .ret (.finite (Q.ofInt (-1))) none := by
  constructor
  · decide
  · decide

/-- C9 (confirmed): for every pair of sequences, every declared correlation
kind other than Pearson — Spearman, KendallTau, GoodmanKruskal — makes the
dispatcher `Correlate` return the zero coefficient with the non-nil
"not implemented" error; no kind other than Pearson yields a nil error. -/
theorem c9_not_implemented_kinds :
    ∀ (x y : List NativeValue) (k : CKind), k ≠ .pearson →
      Correlate x y k = .ret Fl.fzero (some .notImplemented) := by
  intro x y k hk
  cases k with
  | pearson => exact absurd rfl hk
  | spearman => rfl
  | kendallTau => rfl
  | goodmanKruskal => rfl

/-- Witness for C9: the Spearman kind on a concrete pair. -/
theorem c9_witness :
    Correlate [.vInt 1, .vInt 2] [.vInt 3, .vInt 4] .spearman
      = .ret Fl.fzero (some .notImplemented) :=
  c9_not_implemented_kinds [.vInt 1, .vInt 2] [.vInt 3, .vInt 4] .spearman (by decide)

/-- C10 (confirmed): no big-path operation mutates caller storage.  In the
heap model every cell present on entry — in particular every `*big.Float` /
`*big.Int` the input slices point to — holds exactly the same value after
`mixedToBig`, `PearsonsBig`, `CorrelateBig` and `CorrelateMixed`, under every
outcome (result, error, or panic), because each input value is defensively
copied into a freshly allocated `big.Float` before any arithmetic and all
receiver-mutating calls target freshly allocated cells.  (The input address
lists themselves are immutable values in the model, as the source never
assigns to the slices' elements.) -/
theorem c10_no_input_mutation :
    (∀ (h : Heap) (x : List HMixed) (a : Nat), a < h.length →
      hget (mixedToBigH h 0 x).1 a = hget h a) ∧
    (∀ (h : Heap) (xs ys : List HBigInput) (a : Nat), a < h.length →
      hget (PearsonsBigH h xs ys).1 a = hget h a) ∧
    (∀ (h : Heap) (xs ys : List HBigInput) (k : CKind) (a : Nat), a < h.length →
      hget (CorrelateBigH h xs ys k).1 a = hget h a) ∧
    (∀ (h : Heap) (x y : List HMixed) (k : CKind) (a : Nat), a < h.length →
      hget (CorrelateMixedH h x y k).1 a = hget h a) :=
  ⟨fun h x a ha => (mixedToBigH_ext (L := h.length) x h 0 (Nat.le_refl _)).2 a ha,
   fun h xs ys a ha => (pearsonsBigH_ext (L := h.length) h xs ys (Nat.le_refl _)).2 a ha,
   fun h xs ys k a ha => (correlateBigH_ext (L := h.length) h xs ys k (Nat.le_refl _)).2 a ha,
   fun h x y k a ha => (correlateMixedH_ext (L := h.length) h x y k (Nat.le_refl _)).2 a ha⟩

/-- Witness for C10: a three-cell heap (two `big.Float`s and one `big.Int`)
run through a full `PearsonsBig` call keeps cell 0 intact. -/
theorem c10_witness :
    hget (PearsonsBigH [.hf (.fin (Q.ofInt 1)), .hf (.fin (Q.ofInt 2)), .hi 7]
        [.pf (some 0), .pf (some 1)] [.pi (some 2), .pf (some 1)]).1 0
      = hget [.hf (.fin (Q.ofInt 1)), .hf (.fin (Q.ofInt 2)), .hi 7] 0 :=
  c10_no_input_mutation.2.1 [.hf (.fin (Q.ofInt 1)), .hf (.fin (Q.ofInt 2)), .hi 7]
    [.pf (some 0), .pf (some 1)] [.pi (some 2), .pf (some 1)] 0 (by decide)
